import Mathlib

/-!
Verification development for the Filtra conversational catalog-lookup bot
(`bot.py`).  Strings are modelled as `List Char`; Python string operations
(`lower`, `strip`, `split`, `replace`, the decimal-comma regex) are embedded
as executable Lean functions.  Machine floats produced by Python's `float()`
are modelled as exact rationals: every numeric literal the engine-displacement
parser accepts (at most five characters) is far enough from the range bounds
0.5 and 16.0 — which are themselves exactly representable — for the rational
model to agree with binary floating point.
-/

set_option maxRecDepth 10000
set_option maxHeartbeats 2000000

/-- Coerce a Lean string literal to the `List Char` representation used
throughout this development. -/
def s2l (s : String) : List Char := s.data

/-- ASCII whitespace, the character class Python's `str.split()` and
`str.strip()` treat as separators (for the inputs modelled here). -/
def isSpaceChar (c : Char) : Bool :=
  c == ' ' || c == '\t' || c == '\n' || c == '\r' || c == '\x0b' || c == '\x0c'

/-- ASCII decimal digit test, Python's `str.isdigit` for the ASCII range. -/
def isDigitChar (c : Char) : Bool := '0' ≤ c && c ≤ '9'

/-- Uppercase-to-lowercase table: ASCII letters plus the accented letters that
occur in the Spanish-language catalog data handled by the bot. -/
def lowerPairs : List (Char × Char) :=
  [('A', 'a'), ('B', 'b'), ('C', 'c'), ('D', 'd'), ('E', 'e'), ('F', 'f'),
   ('G', 'g'), ('H', 'h'), ('I', 'i'), ('J', 'j'), ('K', 'k'), ('L', 'l'),
   ('M', 'm'), ('N', 'n'), ('O', 'o'), ('P', 'p'), ('Q', 'q'), ('R', 'r'),
   ('S', 's'), ('T', 't'), ('U', 'u'), ('V', 'v'), ('W', 'w'), ('X', 'x'),
   ('Y', 'y'), ('Z', 'z'),
   ('Á', 'á'), ('É', 'é'), ('Í', 'í'), ('Ó', 'ó'), ('Ú', 'ú'), ('Ü', 'ü'),
   ('Ñ', 'ñ'), ('Ë', 'ë')]

/-- Python `str.lower()` on a single character (restricted to the alphabet
relevant to this code base). -/
def lowerChar (c : Char) : Char :=
  match lowerPairs.find? (fun p => p.1 == c) with
  | some p => p.2
  | none => c

/-- Python `str.lower()`. -/
def pyLower (s : List Char) : List Char := s.map lowerChar

/-- Python `str.strip()`. -/
def pyStrip (s : List Char) : List Char :=
  ((s.dropWhile isSpaceChar).reverse.dropWhile isSpaceChar).reverse

/-- Worker for `pySplit`: accumulates the current (reversed) token. -/
def splitAux : List Char → List Char → List (List Char)
  | [], acc => if acc.isEmpty then [] else [acc.reverse]
  | c :: rest, acc =>
    if isSpaceChar c then
      if acc.isEmpty then splitAux rest [] else acc.reverse :: splitAux rest []
    else splitAux rest (c :: acc)

/-- Python `str.split()` with no argument: split on whitespace runs and drop
empty pieces. -/
def pySplit (s : List Char) : List (List Char) := splitAux s []

/-- Fuel-indexed worker for `pyReplace`; the fuel is the length of the
string, which bounds the number of recursive steps. -/
def replaceFuel : Nat → List Char → List Char → List Char → List Char
  | 0, s, _, _ => s
  | _ + 1, [], _, _ => []
  | f + 1, c :: rest, old, new =>
    if old ≠ [] ∧ old.isPrefixOf (c :: rest) then
      new ++ replaceFuel f ((c :: rest).drop old.length) old new
    else c :: replaceFuel f rest old new

/-- Python `str.replace(old, new)`: left-to-right, non-overlapping; the
scanner continues after the inserted replacement text. -/
def pyReplace (s old new : List Char) : List Char := replaceFuel s.length s old new

/-- Python's substring test `needle in hay`. -/
def containsSub (needle : List Char) : List Char → Bool
  | [] => needle.isEmpty
  | c :: rest => needle.isPrefixOf (c :: rest) || containsSub needle rest

/-- Fuel-indexed worker for `commaSub`. -/
def commaSubFuel : Nat → List Char → List Char
  | 0, s => s
  | _ + 1, [] => []
  | f + 1, c :: rest =>
    if isDigitChar c then
      match (c :: rest).dropWhile isDigitChar with
      | ',' :: d :: r4 =>
        if isDigitChar d then
          (c :: rest).takeWhile isDigitChar
            ++ '.' :: (d :: r4).takeWhile isDigitChar
            ++ commaSubFuel f ((d :: r4).dropWhile isDigitChar)
        else c :: commaSubFuel f rest
      | _ => c :: commaSubFuel f rest
    else c :: commaSubFuel f rest

/-- The pre-processing regex `re.sub(r'(\d+),(\d+)', r'\1.\2', ·)`: a comma
between two digit runs becomes a dot, scanning left to right and resuming
after each replacement. -/
def commaSub (s : List Char) : List Char := commaSubFuel s.length s

/-- Value of a string of decimal digits (Python `int(·)` on digit strings). -/
def digitsToNat (s : List Char) : Nat :=
  s.foldl (fun a c => 10 * a + (c.toNat - 48)) 0

/-- Python `str.isdigit()` (ASCII digits; nonempty). -/
def pyIsDigit (s : List Char) : Bool := !s.isEmpty && s.all isDigitChar

/-- Split a list at the first character satisfying `p`, returning the parts
before and after together with the separator itself. -/
def splitFirst (p : Char → Bool) : List Char → Option (List Char × Char × List Char)
  | [] => none
  | c :: rest =>
    if p c then some ([], c, rest)
    else (splitFirst p rest).map (fun t => (c :: t.1, t.2.1, t.2.2))

/-- Strip one optional leading sign, reporting whether it was a minus. -/
def signSplit : List Char → Bool × List Char
  | '+' :: r => (false, r)
  | '-' :: r => (true, r)
  | s => (false, s)

/-- Mantissa of a Python float literal: digits with at most one dot, at least
one digit overall. -/
def mantissaQ (s : List Char) : Option ℚ :=
  match splitFirst (fun c => c == '.') s with
  | none => if pyIsDigit s then some ((digitsToNat s : ℚ)) else none
  | some (a, _, b) =>
    if a.all isDigitChar && b.all isDigitChar && (!a.isEmpty || !b.isEmpty) then
      some ((digitsToNat a : ℚ) + (digitsToNat b : ℚ) / (10 : ℚ) ^ b.length)
    else none

/-- Exponent of a Python float literal: optional sign followed by digits. -/
def expVal (s : List Char) : Option Int :=
  let sp := signSplit s
  if pyIsDigit sp.2 then
    some (if sp.1 then -(digitsToNat sp.2 : Int) else (digitsToNat sp.2 : Int))
  else none

/-- Python `float(·)` on short tokens, as an exact rational.  Python's
`inf`/`nan` words and underscore digit separators are folded into parse
failure: `inf`/`nan` are rejected by the engine range check downstream either
way, so the observable classification is unchanged. -/
def pythonFloat (s : List Char) : Option ℚ :=
  let sp := signSplit s
  match splitFirst (fun c => c == 'e' || c == 'E') sp.2 with
  | none => (mantissaQ sp.2).map (fun v => if sp.1 then -v else v)
  | some (m, _, ex) =>
    match mantissaQ m, expVal ex with
    | some mv, some ev => some ((if sp.1 then -mv else mv) * (10 : ℚ) ^ ev)
    | _, _ => none

/-- The `STOP_WORDS` constant of `bot.py`. -/
def STOP_WORDS : List (List Char) :=
  [s2l "quiero", s2l "busco", s2l "necesito", s2l "para", s2l "el", s2l "la",
   s2l "un", s2l "una", s2l "auto", s2l "coche", s2l "camioneta", s2l "filtro",
   s2l "filtros", s2l "motor"]

/-- The `SYNONYMS` table of `bot.py`, in insertion (application) order. -/
def SYNONYMS : List (List Char × List Char) :=
  [(s2l "vw", s2l "volkswagen"), (s2l "volks", s2l "volkswagen"),
   (s2l "chevy", s2l "chevrolet"),
   (s2l "mb", s2l "mercedes-benz"), (s2l "mercedes", s2l "mercedes-benz"),
   (s2l "citroen", s2l "citroën"),
   (s2l "s-10", s2l "s10"), (s2l "s 10", s2l "s10")]

/-- The `NUMERIC_MODEL_WHITELIST` constant of `bot.py`. -/
def NUMERIC_MODEL_WHITELIST : List (List Char) :=
  [s2l "206", s2l "207", s2l "208", s2l "306", s2l "307", s2l "308",
   s2l "405", s2l "408", s2l "504", s2l "505", s2l "3008", s2l "5008",
   s2l "500", s2l "f100", s2l "f150", s2l "ram1500", s2l "ram2500"]

/-- The synonym loop of `parse_search_query`: literal substring replacement,
applied sequentially in table order. -/
def applySynonyms (s : List Char) : List Char :=
  SYNONYMS.foldl (fun acc kv => pyReplace acc kv.1 kv.2) s

/-- Normalization pipeline of `parse_search_query`: lower-case, decimal-comma
rewrite, punctuation stripping, synonym substitution. -/
def normalizeText (text : List Char) : List Char :=
  applySynonyms
    (pyReplace
      (pyReplace
        (pyReplace
          (pyReplace (commaSub (pyLower text)) [','] [])
          ['('] [])
        [')'] [])
      ['\''] [])

/-- Token stream of `parse_search_query` after normalization and whitespace
splitting. -/
def tokensOf (text : List Char) : List (List Char) := pySplit (normalizeText text)

/-- Year rule of `parse_search_query`: exactly four ASCII digits whose value
lies in [1950, 2030]. -/
def isYearTok (t : List Char) : Bool :=
  pyIsDigit t && t.length == 4 && decide (1950 ≤ digitsToNat t) &&
    decide (digitsToNat t ≤ 2030)

/-- Final stage of the engine-displacement rule: parse the normalized string
as a float, pad bare integers with a trailing `.0`, and accept only values in
[0.5, 16.0]. -/
def engineNormFloat (norm : List Char) : Option (List Char) :=
  match pythonFloat norm with
  | none => none
  | some v =>
    let norm2 := if '.' ∈ norm then norm else norm ++ ['.', '0']
    if (1 / 2 : ℚ) ≤ v ∧ v ≤ 16 then some norm2 else none

/-- Format guard of the engine-displacement rule: the (liter-stripped) token
must contain a dot or comma, or carry the liter suffix, or be all digits;
commas are then rewritten to dots. -/
def engineNormTC (tc : List Char) (isL : Bool) : Option (List Char) :=
  if ('.' ∈ tc ∨ ',' ∈ tc) ∨ isL = true ∨ pyIsDigit tc = true then
    engineNormFloat (tc.map (fun c => if c == ',' then '.' else c))
  else none

/-- Liter-suffix stripping of the engine-displacement rule. -/
def engineNormL (tl : List Char) : Option (List Char) :=
  if tl.getLast? == some 'l' then engineNormTC tl.dropLast true
  else engineNormTC tl false

/-- Engine-displacement rule of `parse_search_query`: tokens of length at most
five, optionally suffixed with `l`, containing a dot/comma or consisting of
digits, whose float value lies in [0.5, 16.0]; returns the normalized decimal
string stored in `engine_filter`. -/
def engineNorm (token : List Char) : Option (List Char) :=
  if token.length ≤ 5 then engineNormL (pyLower token) else none

/-- Destination of a single token in the classifier loop of
`parse_search_query`. -/
inductive TokClass where
  | stop : TokClass
  | text : List Char → TokClass
  | year : Nat → TokClass
  | engine : List Char → TokClass
deriving DecidableEq

/-- Token classifier of `parse_search_query`, in the fixed priority order of
the source: stop-word, numeric-model whitelist, year, engine displacement,
free-text fallback. -/
def classifyToken (token : List Char) : TokClass :=
  if token ∈ STOP_WORDS then .stop
  else if token ∈ NUMERIC_MODEL_WHITELIST then .text token
  else if isYearTok token then .year (digitsToNat token)
  else
    match engineNorm token with
    | some norm => .engine norm
    | none => .text token

/-- The structured parse produced by `parse_search_query` for nonempty
input. -/
structure ParsedQuery where
  text_tokens : List (List Char)
  year_filter : Option Nat
  engine_filter : Option (List Char)
deriving DecidableEq

/-- One iteration of the token loop of `parse_search_query`: stop-words are
dropped, text tokens appended, year/engine assignments overwrite the field
unconditionally. -/
def stepTok (q : ParsedQuery) (token : List Char) : ParsedQuery :=
  match classifyToken token with
  | .stop => q
  | .text t => { q with text_tokens := q.text_tokens ++ [t] }
  | .year n => { q with year_filter := some n }
  | .engine e => { q with engine_filter := some e }

/-- The token loop of `parse_search_query` over a whole token stream. -/
def runTokens (ts : List (List Char)) : ParsedQuery :=
  ts.foldl stepTok ⟨[], none, none⟩

/-- Return shape of `parse_search_query`: the empty input returns a bare
empty dictionary (no keys), every other input returns a dictionary carrying
all three of `text_tokens`, `year_filter`, `engine_filter`. -/
inductive ParseResult where
  | emptyDict : ParseResult
  | result : ParsedQuery → ParseResult
deriving DecidableEq

/-- `parse_search_query` of `bot.py`. -/
def parse_search_query (text : List Char) : ParseResult :=
  if text = [] then .emptyDict else .result (runTokens (tokensOf text))

/-- Character for a single decimal digit. -/
def d2c (d : Nat) : Char :=
  match d with
  | 0 => '0' | 1 => '1' | 2 => '2' | 3 => '3' | 4 => '4'
  | 5 => '5' | 6 => '6' | 7 => '7' | 8 => '8' | 9 => '9'
  | _ => '*'

/-- Fuel-indexed worker for `natDigits`. -/
def natDigitsFuel : Nat → Nat → List Char → List Char
  | 0, _, acc => acc
  | f + 1, n, acc =>
    if n = 0 then acc else natDigitsFuel f (n / 10) (d2c (n % 10) :: acc)

/-- Python `str(·)` on a natural number. -/
def natDigits (n : Nat) : List Char :=
  if n = 0 then ['0'] else natDigitsFuel n n []

/-- Join pieces with single spaces (the canonical re-rendering of a parsed
query as a search string). -/
def joinSpace : List (List Char) → List Char
  | [] => []
  | [t] => t
  | t :: ts => t ++ ' ' :: joinSpace ts

/-- The pieces of a parsed query rendered back to tokens: the text tokens in
order, then the year filter, then the engine filter. -/
def piecesOf (q : ParsedQuery) : List (List Char) :=
  q.text_tokens ++
    (match q.year_filter with | some y => [natDigits y] | none => []) ++
    (match q.engine_filter with | some e => [e] | none => [])

/-- A parsed query rendered back to a single normalized query string. -/
def renderQuery (q : ParsedQuery) : List Char := joinSpace (piecesOf q)

/-- Year extracted by the classifier from one token, if any. -/
def filterYear (t : List Char) : Option Nat :=
  match classifyToken t with | .year n => some n | _ => none

/-- Engine string extracted by the classifier from one token, if any. -/
def filterEngine (t : List Char) : Option (List Char) :=
  match classifyToken t with | .engine e => some e | _ => none

/-- Text token kept by the classifier from one token, if any. -/
def filterText (t : List Char) : Option (List Char) :=
  match classifyToken t with | .text u => some u | _ => none

/-- All year values the classifier extracts from a token stream, in order. -/
def yearsOf (ts : List (List Char)) : List Nat := ts.filterMap filterYear

/-- All engine strings the classifier extracts from a token stream, in
order. -/
def enginesOf (ts : List (List Char)) : List (List Char) := ts.filterMap filterEngine

/-- All free-text tokens the classifier keeps from a token stream, in
order. -/
def textsOf (ts : List (List Char)) : List (List Char) := ts.filterMap filterText

theorem or_none_left {α : Type} (x : Option α) : (Option.or none x) = x := rfl

theorem or_some_absorb {α : Type} (x : Option α) (b : α) (y : Option α) :
    ((x.or (some b)).or y) = x.or (some b) := by
  cases x <;> rfl

theorem getLast?_cons_or {α : Type} (a : α) (l : List α) :
    (a :: l).getLast? = (l.getLast?).or (some a) := by
  induction l generalizing a with
  | nil => rfl
  | cons b l ih =>
    rw [List.getLast?_cons_cons, ih b]
    exact (or_some_absorb _ b (some a)).symm

theorem foldl_stepTok (ts : List (List Char)) (q : ParsedQuery) :
    ts.foldl stepTok q =
      ⟨q.text_tokens ++ textsOf ts,
       ((yearsOf ts).getLast?).or q.year_filter,
       ((enginesOf ts).getLast?).or q.engine_filter⟩ := by
  induction ts generalizing q with
  | nil => simp [textsOf, yearsOf, enginesOf, or_none_left]
  | cons t ts ih =>
    rw [List.foldl_cons, ih]
    rcases hc : classifyToken t with _ | u | n | e <;>
      simp only [stepTok, hc, textsOf, yearsOf, enginesOf, filterText,
        filterYear, filterEngine, List.filterMap_cons, getLast?_cons_or,
        or_some_absorb, List.append_assoc, List.singleton_append,
        ParsedQuery.mk.injEq, and_self, and_true, true_and]

theorem runTokens_eq (ts : List (List Char)) :
    runTokens ts =
      ⟨textsOf ts, (yearsOf ts).getLast?, (enginesOf ts).getLast?⟩ := by
  rw [runTokens, foldl_stepTok]
  cases hy : (yearsOf ts).getLast? <;> cases he : (enginesOf ts).getLast? <;> rfl

/-- C1 (amended): the query classifier does NOT keep the first year-like and
engine-like token; instead every later year-like (engine-like) token
overwrites the filter, so the LAST match wins.  The part of the claim about
`textTokens` is correct: year-like and engine-like tokens are dropped
silently and never appended to `textTokens`, which consists exactly of the
text-classified tokens in order. -/
theorem C1_last_match_wins (text : List Char) :
    (runTokens (tokensOf text)).year_filter = (yearsOf (tokensOf text)).getLast? ∧
    (runTokens (tokensOf text)).engine_filter = (enginesOf (tokensOf text)).getLast? ∧
    (runTokens (tokensOf text)).text_tokens = textsOf (tokensOf text) := by
  refine ⟨?_, ?_, ?_⟩ <;> rw [runTokens_eq]

/-- C1 counterexample: on input `"2010 2015"` the parser returns
`yearFilter = 2015` — the later year-like token has overwritten the earlier
one, contradicting the claim that the first match is kept and later matches
leave the already-set filter unchanged. -/
theorem C1_counterexample :
    parse_search_query (s2l "2010 2015") = .result ⟨[], some 2015, none⟩ ∧
    ParseResult.result ⟨[], some 2015, none⟩ ≠
      ParseResult.result ⟨[], some 2010, none⟩ := by
  refine ⟨by rfl, by decide⟩

/-- C10: the parser's result shape is irregular at the empty-input edge: the
empty text returns the keyless empty dictionary, and every nonempty text —
even whitespace-only text, whose token list is empty — returns the full
three-field dictionary. -/
theorem C10_empty_edge (text : List Char) :
    (parse_search_query text = .emptyDict ↔ text = []) ∧
    parse_search_query (s2l " ") = .result ⟨[], none, none⟩ := by
  refine ⟨?_, by decide⟩
  unfold parse_search_query
  by_cases h : text = [] <;> simp [h]

/-- The closed set of session states stored in the `status` column and
dispatched on by the webhook handler. -/
inductive Status where
  | bot | human | menu_mode
  | waiting_mechanic_priority | waiting_mechanic_name
  | waiting_seller_name | waiting_seller_location | waiting_seller_logistics
  | waiting_buyer_location | waiting_buyer_urgency
deriving DecidableEq

/-- The fields of a catalog row that the result classifier of
`process_search_request` consults (`brand_car` and `model`; the remaining
selected columns feed only the presentation of the 1–10 list, which is out of
the modelled core). -/
structure VehicleRow where
  brand_car : List Char
  model : List Char
deriving DecidableEq

/-- Python `list(set(·))` keeping first occurrences (only the length and, in
the single-brand case, the unique element are consumed downstream). -/
def dedupAux : List (List Char) → List (List Char) → List (List Char)
  | [], _ => []
  | x :: xs, seen =>
    if x ∈ seen then dedupAux xs seen else x :: dedupAux xs (x :: seen)

/-- Distinct elements of a list, first occurrences first. -/
def dedupFirst (l : List (List Char)) : List (List Char) := dedupAux l []

/-- Lexicographic comparison on code points, Python's string `<=`. -/
def lexLe : List Char → List Char → Bool
  | [], _ => true
  | _ :: _, [] => false
  | a :: as, b :: bs => if a = b then lexLe as bs else decide (a < b)

/-- Insert into a lexicographically sorted list. -/
def insertLex (x : List Char) : List (List Char) → List (List Char)
  | [] => [x]
  | y :: ys => if lexLe x y then x :: y :: ys else y :: insertLex x ys

/-- Python `sorted(·)` on lists of strings (stable insertion sort). -/
def sortLex (l : List (List Char)) : List (List Char) := l.foldr insertLex []

/-- The next conversational action chosen by `process_search_request` from
the matched result set. -/
inductive SearchOutcome where
  | feedbackAck : SearchOutcome
  | notFound : SearchOutcome
  | modelMenu : List Char → List (List Char) → SearchOutcome
  | modelTextFallback : List Char → List (List Char) → SearchOutcome
  | refinePrompt : SearchOutcome
  | vehicleList : List VehicleRow → SearchOutcome
deriving DecidableEq

/-- Result classification of `process_search_request`: zero matches (feedback
acknowledgement in `menu_mode`, otherwise "not found"); more than ten matches
with a single brand and 2–10 distinct models (interactive model menu); more
than ten matches, single brand, more than ten distinct models (plain-text
list of the first eight sorted models, asking the user to type one); more
than ten matches otherwise (prompt to refine with model + year); one to ten
matches (selectable vehicle list). -/
def classifyResults (vehicles : List VehicleRow) (st : Status) : SearchOutcome :=
  if vehicles = [] then
    if st = .menu_mode then .feedbackAck else .notFound
  else if vehicles.length > 10 then
    let ub := dedupFirst (vehicles.map (·.brand_car))
    let um := sortLex (dedupFirst (vehicles.map (·.model)))
    if ub.length = 1 ∧ um.length > 1 then
      if 2 ≤ um.length ∧ um.length ≤ 10 then .modelMenu (ub.headD []) um
      else .modelTextFallback (ub.headD []) (um.take 8)
    else .refinePrompt
  else .vehicleList vehicles

theorem insertLex_length (x : List Char) (l : List (List Char)) :
    (insertLex x l).length = l.length + 1 := by
  induction l with
  | nil => rfl
  | cons y ys ih =>
    by_cases h : lexLe x y = true <;> simp [insertLex, h, ih]

theorem sortLex_length (l : List (List Char)) :
    (sortLex l).length = l.length := by
  induction l with
  | nil => rfl
  | cons y ys ih => simp [sortLex, List.foldr_cons, insertLex_length]
                    simpa [sortLex] using ih

/-- The twelve-row, single-brand, twelve-distinct-model catalog slice of the
scenario in the claim. -/
def fordTwelve : List VehicleRow :=
  [⟨s2l "ford", s2l "m01"⟩, ⟨s2l "ford", s2l "m02"⟩, ⟨s2l "ford", s2l "m03"⟩,
   ⟨s2l "ford", s2l "m04"⟩, ⟨s2l "ford", s2l "m05"⟩, ⟨s2l "ford", s2l "m06"⟩,
   ⟨s2l "ford", s2l "m07"⟩, ⟨s2l "ford", s2l "m08"⟩, ⟨s2l "ford", s2l "m09"⟩,
   ⟨s2l "ford", s2l "m10"⟩, ⟨s2l "ford", s2l "m11"⟩, ⟨s2l "ford", s2l "m12"⟩]

/-- C3 counterexample: a single-brand result set of 12 vehicles spanning
exactly 12 distinct models does NOT produce a selectable menu with one entry
per distinct model; the classifier falls back to a plain-text list of the
first eight sorted models and asks the user to type one.  (It is also not the
"narrow your search" branch, so that half of the claim was right.) -/
theorem C3_counterexample :
    classifyResults fordTwelve Status.bot =
      .modelTextFallback (s2l "ford")
        [s2l "m01", s2l "m02", s2l "m03", s2l "m04",
         s2l "m05", s2l "m06", s2l "m07", s2l "m08"] ∧
    (¬ ∃ b ms, classifyResults fordTwelve Status.bot = .modelMenu b ms) ∧
    classifyResults fordTwelve Status.bot ≠ .refinePrompt := by
  have h : classifyResults fordTwelve Status.bot =
      .modelTextFallback (s2l "ford")
        [s2l "m01", s2l "m02", s2l "m03", s2l "m04",
         s2l "m05", s2l "m06", s2l "m07", s2l "m08"] := by decide
  refine ⟨h, ?_, ?_⟩
  · rintro ⟨b, ms, hb⟩
    rw [h] at hb
    exact SearchOutcome.noConfusion hb
  · rw [h]
    exact fun hb => SearchOutcome.noConfusion hb

/-- C3 (amended): for a result set of more than ten vehicles sharing a single
brand and spanning more than ten distinct models, the classifier takes the
single-brand branch's plain-text fallback — it lists the first eight of the
sorted distinct models and asks the user to type one — rather than an
interactive per-model menu, and it does not take the branch asking to narrow
by year or engine size. -/
theorem C3_single_brand_overflow (vehicles : List VehicleRow) (st : Status)
    (hlen : vehicles.length > 10)
    (hb : (dedupFirst (vehicles.map (·.brand_car))).length = 1)
    (hm : (dedupFirst (vehicles.map (·.model))).length > 10) :
    classifyResults vehicles st =
      .modelTextFallback ((dedupFirst (vehicles.map (·.brand_car))).headD [])
        ((sortLex (dedupFirst (vehicles.map (·.model)))).take 8) := by
  have hne : vehicles ≠ [] := by
    intro h; rw [h] at hlen; simp at hlen
  have hm' : (sortLex (dedupFirst (vehicles.map (·.model)))).length > 10 := by
    rw [sortLex_length]; exact hm
  unfold classifyResults
  rw [if_neg hne, if_pos hlen, if_pos ⟨hb, by omega⟩, if_neg (by omega)]

/-- Witness for `C3_single_brand_overflow` at the concrete twelve-row
catalog. -/
theorem C3_single_brand_overflow_witness :
    classifyResults fordTwelve Status.bot =
      .modelTextFallback ((dedupFirst (fordTwelve.map (·.brand_car))).headD [])
        ((sortLex (dedupFirst (fordTwelve.map (·.model)))).take 8) :=
  C3_single_brand_overflow fordTwelve Status.bot (by decide) (by decide) (by decide)

/-- The accent-class table of `to_accent_regex`: each plain vowel (and `n`)
expands to the bracket alternation of its accented variants. -/
def accentExpand (c : Char) : List Char :=
  if c = 'a' then ['a', 'á']
  else if c = 'e' then ['e', 'é']
  else if c = 'i' then ['i', 'í']
  else if c = 'o' then ['o', 'ó']
  else if c = 'u' then ['u', 'ú', 'ü']
  else if c = 'n' then ['n', 'ñ']
  else [c]

/-- `to_accent_regex` of `bot.py`: the pattern is a sequence of character
classes, one per pattern character. -/
def to_accent_regex (t : List Char) : List (List Char) := t.map accentExpand

/-- One pattern position matches one subject character, case-insensitively
(`imatch` is PostgREST's case-insensitive POSIX regex operator; the class
characters are already lower case). -/
def charMatches (cls : List Char) (c : Char) : Bool := lowerChar c ∈ cls

/-- The pattern matches a prefix of the subject. -/
def patPrefix : List (List Char) → List Char → Bool
  | [], _ => true
  | _ :: _, [] => false
  | cls :: ps, c :: cs => charMatches cls c && patPrefix ps cs

/-- The pattern matches somewhere inside the subject (unanchored regex
search, used for tokens longer than three characters). -/
def patSub (pat : List (List Char)) : List Char → Bool
  | [] => patPrefix pat []
  | c :: cs => patPrefix pat (c :: cs) || patSub pat cs

/-- PostgreSQL word characters (alphanumerics, underscore, and the accented
letters of the catalog's locale), the classes `\y` distinguishes. -/
def isWordChar (c : Char) : Bool :=
  isDigitChar c || ('a' ≤ c && c ≤ 'z') || ('A' ≤ c && c ≤ 'Z') || c == '_' ||
    c ∈ ['á', 'é', 'í', 'ó', 'ú', 'ü', 'ñ', 'Á', 'É', 'Í', 'Ó', 'Ú', 'Ü', 'Ñ']

/-- A `\y` boundary holds between two (optional) characters iff exactly one
side is a word character; the ends of the subject count as non-word. -/
def boundaryBetween (a b : Option Char) : Bool :=
  (a.elim false isWordChar) != (b.elim false isWordChar)

/-- Run the pattern from the current position, tracking the last consumed
character so the closing `\y` can be checked against the following one. -/
def patRunEnd : List (List Char) → Option Char → List Char → Bool
  | [], last, rest => boundaryBetween last rest.head?
  | _ :: _, _, [] => false
  | cls :: ps, _, c :: cs => charMatches cls c && patRunEnd ps (some c) cs

/-- Worker for `boundSub`: scan all positions, remembering the previous
character for the opening `\y`. -/
def boundSubAux (pat : List (List Char)) : Option Char → List Char → Bool
  | prev, [] => boundaryBetween prev none && patRunEnd pat prev []
  | prev, c :: cs =>
    (boundaryBetween prev (some c) && patRunEnd pat prev (c :: cs)) ||
      boundSubAux pat (some c) cs

/-- The pattern wrapped in `\y...\y` word-boundary anchors matches somewhere
inside the subject (used for tokens of length at most three). -/
def boundSub (pat : List (List Char)) (s : List Char) : Bool :=
  boundSubAux pat none s

/-- The per-token, per-column predicate compiled by `search_vehicle`: the
token is sanitized (apostrophes and percent signs removed), expanded to an
accent-insensitive pattern, and matched as a plain substring when longer than
three characters or under word-boundary anchors otherwise. -/
def tokenColumnMatch (token value : List Char) : Bool :=
  let safe := pyReplace (pyReplace token ['\''] []) ['%'] []
  let fuzzy := to_accent_regex safe
  if safe.length > 3 then patSub fuzzy value else boundSub fuzzy value

/-- C4: per-token match strictness is decided by token length — substring
matching above three characters, the same accent-expanded pattern inside
word-boundary anchors at three characters or fewer — and concretely the
short token `"mio"` does not match the catalog value `"kamion"` (although it
does occur there as a raw substring) yet does match `"Clio Mío"`. -/
theorem C4_match_strictness :
    (∀ tok v, tokenColumnMatch tok v =
      (let safe := pyReplace (pyReplace tok ['\''] []) ['%'] []
       if safe.length > 3 then patSub (to_accent_regex safe) v
       else boundSub (to_accent_regex safe) v)) ∧
    tokenColumnMatch (s2l "mio") (s2l "kamion") = false ∧
    patSub (to_accent_regex (s2l "mio")) (s2l "kamion") = true ∧
    tokenColumnMatch (s2l "mio") (s2l "Clio Mío") = true := by
  refine ⟨fun tok v => rfl, by decide, by decide, by decide⟩

/-- Outcome of one outbound channel call: it returns, or it raises. -/
inductive SendOutcome where
  | ok | err
deriving DecidableEq

/-- One attempted outbound call, with its payload. -/
inductive ChannelAttempt where
  | waButtons : List Char → List (List Char × List Char) → ChannelAttempt
  | waList : List Char → List (List Char × List Char) → ChannelAttempt
  | waText : List Char → ChannelAttempt
  | tgLog : List Char → ChannelAttempt
deriving DecidableEq

/-- One call site inside `reply_and_mirror`: the call's outcome, its payload,
and whether the call site is wrapped in its own `try/except`. -/
structure GuardedCall where
  outcome : SendOutcome
  attempt : ChannelAttempt
  guarded : Bool

/-- Sequential execution with Python exception semantics: an unguarded
raising call aborts the remaining statements; a guarded one is swallowed and
execution continues.  The returned list records which calls were attempted. -/
def runCalls : List GuardedCall → List ChannelAttempt
  | [] => []
  | c :: rest =>
    c.attempt :: (if c.outcome = .err ∧ c.guarded = false then [] else runCalls rest)

/-- The primary (WhatsApp) call chosen by `reply_and_mirror`: interactive
buttons, else an interactive list, else plain text. -/
def primarySend (text : List Char) (buttons listRows : List (List Char × List Char)) :
    ChannelAttempt :=
  if !buttons.isEmpty then .waButtons text buttons
  else if !listRows.isEmpty then .waList text listRows
  else .waText text

/-- The mirror text built by `reply_and_mirror`: the exact reply text with a
bot prefix, plus visual cues for buttons and lists (presentation strings
abbreviated). -/
def mirrorTextOf (text : List Char) (buttons listRows : List (List Char × List Char)) :
    List Char :=
  s2l "Bot: " ++ text ++
    (if buttons.isEmpty then [] else s2l " [buttons]") ++
    (if listRows.isEmpty then [] else s2l " [list]")

/-- `reply_and_mirror` of `bot.py`: the WhatsApp send and the Telegram mirror
send, each wrapped in its own `try/except`.  The parameters `wa` and `tg` are
the outcomes of the two channel calls. -/
def reply_and_mirror (text : List Char) (buttons listRows : List (List Char × List Char))
    (wa tg : SendOutcome) : List ChannelAttempt :=
  runCalls
    [⟨wa, primarySend text buttons listRows, true⟩,
     ⟨tg, .tgLog (mirrorTextOf text buttons listRows), true⟩]

theorem isPrefixOf_append_self (t suf : List Char) :
    t.isPrefixOf (t ++ suf) = true := by
  induction t with
  | nil => rw [List.isPrefixOf]
  | cons c t ih =>
    rw [List.cons_append, List.isPrefixOf, ih]
    simp

theorem containsSub_middle (pre t suf : List Char) :
    containsSub t (pre ++ t ++ suf) = true := by
  induction pre with
  | nil =>
    rw [List.nil_append]
    cases t with
    | nil =>
      cases suf with
      | nil => rfl
      | cons c cs => rfl
    | cons c ts =>
      rw [List.cons_append]
      show ((c :: ts).isPrefixOf (c :: (ts ++ suf)) ||
        containsSub (c :: ts) (ts ++ suf)) = true
      rw [← List.cons_append, isPrefixOf_append_self]
      rfl
  | cons p pre ih =>
    rw [List.cons_append]
    show (t.isPrefixOf (p :: (pre ++ t ++ suf)) ||
      containsSub t (pre ++ t ++ suf)) = true
    rw [ih, Bool.or_true]

/-- C9: whatever each channel call does, both the primary WhatsApp send and
the Telegram mirror send are attempted — a raising primary does not prevent
the mirror attempt, and a raising mirror neither aborts nor undoes the
primary — and the mirror payload carries the exact reply text. -/
theorem C9_failure_isolated (text : List Char)
    (buttons listRows : List (List Char × List Char)) (wa tg : SendOutcome) :
    reply_and_mirror text buttons listRows wa tg =
      [primarySend text buttons listRows,
       .tgLog (mirrorTextOf text buttons listRows)] ∧
    containsSub text (mirrorTextOf text buttons listRows) = true := by
  constructor
  · unfold reply_and_mirror runCalls
    cases wa <;> cases tg <;> simp [runCalls]
  · unfold mirrorTextOf
    rw [List.append_assoc, List.append_assoc]
    exact containsSub_middle (s2l "Bot: ") text _

/-- Observable side effects of one handled inbound event.  Presentation copy
strings are abbreviated to tags (spec: message copy is illustrative, not
contractual); what matters is which effect occurs with which payload. -/
inductive Effect where
  | searchDispatched : List Char → Effect
  | metadataUpdate : List (List Char × List Char) → Effect
  | dbSetStatus : Status → Effect
  | dbSetUserType : List Char → Effect
  | dbSetName : List Char → Effect
  | dbSetLocation : List Char → Effect
  | dbTouchLastActive : Effect
  | dbLog : List Char → List Char → Effect
  | sendWA : List Char → Effect
  | sendTG : List Char → Effect
  | vehicleDetailLookup : List Char → Effect
deriving DecidableEq

/-- The per-identity session row of the `users` table, as far as the state
machine reads and writes it. -/
structure Session where
  status : Status
  user_type : List Char
  name : Option (List Char)
  location : Option (List Char)
  metadata : List (List Char × List Char)
  last_active_at : Int
deriving DecidableEq

/-- An inbound message: text, a button press, a list selection, or any other
type (media etc.). -/
inductive InMsg where
  | text : List Char → InMsg
  | buttonReply : List Char → List Char → InMsg
  | listReply : List Char → List Char → InMsg
  | other : InMsg
deriving DecidableEq

/-- `get_message_content`: raw text for text events, the selected title for
interactive events, empty otherwise. -/
def contentOf : InMsg → List Char
  | .text b => b
  | .buttonReply _ t => t
  | .listReply _ t => t
  | .other => []

/-- Keywords that break out of human mode. -/
def HUMAN_KEYWORDS : List (List Char) :=
  [s2l "menu", s2l "start", s2l "bot", s2l "volver", s2l "inicio"]

/-- Global survey-cancel keywords. -/
def CANCEL_KEYWORDS : List (List Char) :=
  [s2l "cancelar", s2l "salir", s2l "menu", s2l "basta", s2l "chau", s2l "volver"]

/-- Greetings answered with the welcome text instead of a search. -/
def GREETING_WORDS : List (List Char) :=
  [s2l "hola", s2l "start", s2l "hi", s2l "hello", s2l "menú", s2l "menu"]

/-- Abbreviated stand-in for the welcome copy. -/
def WELCOME_TEXT : List Char := s2l "WELCOME"

/-- Abbreviated stand-in for the short welcome copy. -/
def SHORT_WELCOME : List Char := s2l "SHORT_WELCOME"

/-- Insert or overwrite one key in the metadata bag. -/
def upsert1 (md : List (List Char × List Char)) (k v : List Char) :
    List (List Char × List Char) :=
  md.filter (fun p => !(p.1 == k)) ++ [(k, v)]

/-- Python `dict.update` on the metadata bag. -/
def mdUpdate (md : List (List Char × List Char))
    (ups : List (List Char × List Char)) : List (List Char × List Char) :=
  ups.foldl (fun acc kv => upsert1 acc kv.1 kv.2) md

/-- The explicit cancel button. -/
def isCancelBtn : InMsg → Bool
  | .buttonReply id _ => id == s2l "btn_cancel_survey"
  | _ => false

/-- The global cancel guard of the webhook: stripped lower-cased content is a
cancel keyword, or the cancel button was pressed. -/
def isCancelEvent (m : InMsg) : Bool :=
  decide (pyLower (pyStrip (contentOf m)) ∈ CANCEL_KEYWORDS) || isCancelBtn m

/-- Text handling in `bot`/`menu_mode`: log, mirror, answer greetings with
the welcome text, dispatch everything else to the search engine. -/
def botText (s : Session) (body : List Char) : Session × List Effect :=
  let text_body := pyStrip body
  let logE :=
    if s.status = .menu_mode then Effect.dbLog (s2l "user_feedback") text_body
    else Effect.dbLog (s2l "search_text") text_body
  if pyLower text_body ∈ GREETING_WORDS then
    (s, [logE, .sendTG (s2l "searched: " ++ text_body), .sendWA WELCOME_TEXT])
  else
    (s, [logE, .sendTG (s2l "searched: " ++ text_body), .searchDispatched text_body])

/-- List-selection handling in `bot`/`menu_mode`: `cmd_search_` entries
re-trigger a search with the embedded query; other ids are vehicle detail
lookups (whose rendered reply depends on the catalog collaborator and is
abstracted to the lookup effect). -/
def botList (s : Session) (id _title : List Char) : Session × List Effect :=
  if (s2l "cmd_search_").isPrefixOf id then
    (s, [.sendTG (s2l "list selection"),
         .searchDispatched (pyReplace id (s2l "cmd_search_") [])])
  else
    (s, [.sendTG (s2l "selected vehicle"), .vehicleDetailLookup id])

/-- Button handling in `bot`/`menu_mode`, in the source's branch order. -/
def botButtons (s : Session) (id title : List Char) : Session × List Effect :=
  let tgE := Effect.sendTG (s2l "click: " ++ title)
  if (s2l "btn_add_missing_").isPrefixOf id then
    (s, [tgE, .dbLog (s2l "request_missing") id, .sendTG (s2l "request to add"),
         .sendWA (s2l "NOTED"), .sendWA SHORT_WELCOME])
  else if id = s2l "btn_human_help" then
    ({ s with status := .human },
     [tgE, .dbSetStatus .human,
      .dbLog (s2l "human_mode_req") (s2l "User requested support"),
      .sendTG (s2l "human support requested"), .sendWA (s2l "HUMAN_MODE")])
  else if id = s2l "btn_return_bot" then
    ({ s with status := .bot },
     [tgE, .dbSetStatus .bot, .sendWA SHORT_WELCOME, .sendTG (s2l "returned to bot")])
  else if id = s2l "btn_search_retry" ∨ id = s2l "btn_search_error" then
    ({ s with status := .bot }, [tgE, .sendWA SHORT_WELCOME, .dbSetStatus .bot])
  else if (s2l "btn_buy_loc").isPrefixOf id then
    ({ s with status := .waiting_buyer_location },
     [tgE, .dbSetStatus .waiting_buyer_location, .sendWA (s2l "ASK_NEIGHBORHOOD")])
  else if (s2l "btn_menu_mech").isPrefixOf id then
    ({ s with status := .menu_mode },
     [tgE, .dbSetStatus .menu_mode, .sendWA (s2l "COLLEAGUE_MENU")])
  else if (s2l "btn_back_actions").isPrefixOf id then
    (s, [tgE, .vehicleDetailLookup id])
  else if id = s2l "btn_is_mechanic" then
    ({ s with status := .waiting_mechanic_priority },
     [tgE, .dbLog (s2l "funnel_start") (s2l "mechanic_registration"),
      .dbSetStatus .waiting_mechanic_priority, .sendWA (s2l "ASK_PRIORITY")])
  else if id = s2l "btn_is_seller" then
    ({ s with status := .waiting_seller_name },
     [tgE, .dbLog (s2l "funnel_start") (s2l "seller_registration"),
      .dbSetStatus .waiting_seller_name, .sendWA (s2l "ASK_BUSINESS_NAME")])
  else (s, [tgE])

/-- The `bot`/`menu_mode` dispatcher (`if status in ['bot', 'menu_mode']`);
in any other status the event falls through with no reply and no
transition. -/
def botMode (s : Session) (m : InMsg) : Session × List Effect :=
  if s.status = .bot ∨ s.status = .menu_mode then
    match m with
    | .text body => botText s body
    | .listReply id title => botList s id title
    | .buttonReply id title => botButtons s id title
    | .other => (s, [])
  else (s, [])

/-- The survey sub-state dispatcher: each step consumes one nonempty input as
the answer, writes it (or a value derived from it) into the metadata bag,
advances the status, and for the final mechanic/seller steps also sets the
user kind; empty input falls through to `botMode`, which ignores it. -/
def routeSurveyOrBot (s : Session) (m : InMsg) (input : List Char) :
    Session × List Effect :=
  match s.status with
  | .waiting_mechanic_priority =>
    if input ≠ [] then
      let pv :=
        if containsSub (s2l "velocidad") (pyLower input) ||
            containsSub (s2l "rocket") (pyLower input)
        then s2l "speed" else s2l "price"
      ({ s with status := .waiting_mechanic_name,
                metadata := mdUpdate s.metadata [(s2l "priority", pv)] },
       [.metadataUpdate [(s2l "priority", pv)],
        .dbSetStatus .waiting_mechanic_name, .sendWA (s2l "ASK_SHOP_NAME")])
    else (s, [])
  | .waiting_mechanic_name =>
    if input ≠ [] then
      ({ s with status := .bot, user_type := s2l "mechanic", name := some input,
                metadata := mdUpdate s.metadata [(s2l "shop_name", input)] },
       [.metadataUpdate [(s2l "shop_name", input)], .dbSetStatus .bot,
        .dbSetUserType (s2l "mechanic"), .dbSetName input,
        .dbLog (s2l "lead_mechanic") input, .sendTG (s2l "mechanic registered"),
        .sendWA (s2l "PROFILE_SAVED")])
    else (s, [])
  | .waiting_seller_name =>
    if input ≠ [] then
      ({ s with status := .waiting_seller_location, name := some input,
                metadata := mdUpdate s.metadata [(s2l "shop_name", input)] },
       [.metadataUpdate [(s2l "shop_name", input)],
        .dbSetStatus .waiting_seller_location, .dbSetName input,
        .sendWA (s2l "ASK_LOCATION")])
    else (s, [])
  | .waiting_seller_location =>
    if input ≠ [] then
      ({ s with status := .waiting_seller_logistics, location := some input,
                metadata := mdUpdate s.metadata [(s2l "location", input)] },
       [.metadataUpdate [(s2l "location", input)],
        .dbSetStatus .waiting_seller_logistics, .dbSetLocation input,
        .sendWA (s2l "ASK_LOGISTICS")])
    else (s, [])
  | .waiting_seller_logistics =>
    if input ≠ [] then
      let lv := if containsSub (s2l "envíos") (pyLower input)
                then s2l "envios" else s2l "retiro"
      ({ s with status := .bot, user_type := s2l "seller",
                metadata := mdUpdate s.metadata [(s2l "logistics", lv)] },
       [.metadataUpdate [(s2l "logistics", lv)], .dbSetStatus .bot,
        .dbSetUserType (s2l "seller"), .dbLog (s2l "lead_seller") lv,
        .sendTG (s2l "seller registered"), .sendWA (s2l "DATA_RECEIVED")])
    else (s, [])
  | .waiting_buyer_location =>
    if input ≠ [] then
      ({ s with status := .waiting_buyer_urgency, location := some input,
                metadata := mdUpdate s.metadata [(s2l "location", input)] },
       [.metadataUpdate [(s2l "location", input)], .dbSetLocation input,
        .dbSetStatus .waiting_buyer_urgency, .sendWA (s2l "ASK_URGENCY")])
    else (s, [])
  | .waiting_buyer_urgency =>
    if input ≠ [] then
      let urgent := containsSub (s2l "ya") (pyLower input) ||
        containsSub (s2l "fuego") (pyLower input) || containsSub ['🔥'] input
      ({ s with status := .bot,
                metadata := mdUpdate s.metadata [(s2l "urgency", input)] },
       [.metadataUpdate [(s2l "urgency", input)], .dbSetStatus .bot,
        .sendTG (if urgent then s2l "urgent buyer" else s2l "buyer inquiry"),
        .dbLog (s2l "lead_buyer") input, .sendWA (s2l "REQUEST_RECEIVED")])
    else (s, [])
  | _ => botMode s m

/-- Human mode: forward everything to the operator channel, except the
bot-return keywords and the explicit return button, which flip the session
back to `bot`. -/
def humanMode (s : Session) (m : InMsg) : Session × List Effect :=
  match m with
  | .text body =>
    if pyStrip (pyLower body) ∈ HUMAN_KEYWORDS then
      ({ s with status := .bot },
       [.dbSetStatus .bot, .sendWA WELCOME_TEXT,
        .sendTG (s2l "keyword detected, bot active")])
    else (s, [.sendTG (s2l "forwarded: " ++ body)])
  | .buttonReply id _ =>
    if id = s2l "btn_return_bot" then
      ({ s with status := .bot },
       [.dbSetStatus .bot, .sendWA WELCOME_TEXT, .sendTG (s2l "returned to bot")])
    else (s, [.sendTG (s2l "forwarded media")])
  | .listReply _ _ => (s, [.sendTG (s2l "forwarded media")])
  | .other => (s, [.sendTG (s2l "forwarded media")])

/-- Routing of one message after session load: human mode first, then the
global cancel guard, then the survey/bot dispatcher. -/
def route (s : Session) (m : InMsg) : Session × List Effect :=
  if s.status = .human then humanMode s m
  else if isCancelEvent m then
    ({ s with status := .bot },
     [.dbSetStatus .bot, .sendTG (s2l "survey cancelled"), .sendWA SHORT_WELCOME])
  else routeSurveyOrBot s m (pyStrip (contentOf m))

/-- One handled (non-discarded) inbound message for an existing session: the
60-minute human-mode inactivity timeout is applied first, `last_active_at`
is refreshed, then the message is routed. -/
def handleMessage (now : Int) (s0 : Session) (m : InMsg) : Session × List Effect :=
  let expired := s0.status = .human ∧ now - s0.last_active_at > 3600
  let s1 := if expired then { s0 with status := .bot } else s0
  let eff1 : List Effect :=
    if expired then
      [.dbSetStatus .bot, .dbTouchLastActive,
       .sendTG (s2l "session expired, bot reactivated")]
    else []
  let r := route { s1 with last_active_at := now } m
  (r.1, eff1 ++ Effect.dbTouchLastActive :: r.2)

/-- One inbound webhook event with its provider timestamp and identifier. -/
structure Event where
  msg : InMsg
  timestamp : Int
  msgId : List Char
deriving DecidableEq

/-- Append to the bounded most-recent-1000 identifier cache. -/
def pushId (cache : List (List Char)) (id : List Char) : List (List Char) :=
  let c := cache ++ [id]
  c.drop (c.length - 1000)

/-- The top of the webhook handler: the staleness guard (provider timestamp
older than 300 seconds), then the duplicate guard (identifier already in the
cache); only an event passing both is recorded in the cache and dispatched. -/
def processEvent (now : Int) (cache : List (List Char)) (s : Session) (ev : Event) :
    List (List Char) × Session × List Effect :=
  if now - ev.timestamp > 300 then (cache, s, [])
  else if ev.msgId ∈ cache then (cache, s, [])
  else
    let r := handleMessage now s ev.msg
    (pushId cache ev.msgId, r.1, r.2)

/-- The survey sub-states. -/
def surveyStates : List Status :=
  [.waiting_mechanic_priority, .waiting_mechanic_name,
   .waiting_seller_name, .waiting_seller_location, .waiting_seller_logistics,
   .waiting_buyer_location, .waiting_buyer_urgency]

/-- Successor of each survey sub-state in its linear flow. -/
def surveyNext : Status → Status
  | .waiting_mechanic_priority => .waiting_mechanic_name
  | .waiting_mechanic_name => .bot
  | .waiting_seller_name => .waiting_seller_location
  | .waiting_seller_location => .waiting_seller_logistics
  | .waiting_seller_logistics => .bot
  | .waiting_buyer_location => .waiting_buyer_urgency
  | .waiting_buyer_urgency => .bot
  | st => st

/-- C5 (amended): while a session is in any survey sub-state no inbound event
is ever dispatched to the search engine; and any event whose nonempty
extracted text is not a cancel input is consumed as the survey answer — a
metadata write derived from the text occurs and the session advances to the
next sub-state. -/
theorem C5_survey_consumes (now : Int) (s : Session) (m : InMsg)
    (hs : s.status ∈ surveyStates) :
    (∀ t, Effect.searchDispatched t ∉ (handleMessage now s m).2) ∧
    (pyStrip (contentOf m) ≠ [] → isCancelEvent m = false →
      (handleMessage now s m).1.status = surveyNext s.status ∧
      ∃ ups, Effect.metadataUpdate ups ∈ (handleMessage now s m).2) := by
  simp only [surveyStates, List.mem_cons, List.not_mem_nil, or_false] at hs
  rcases hs with h | h | h | h | h | h | h <;>
  · constructor
    · intro t ht
      by_cases hc : isCancelEvent m = true <;>
        by_cases hi : pyStrip (contentOf m) = [] <;>
          simp [handleMessage, route, routeSurveyOrBot, h, hc, hi] at ht
    · intro hi hc
      constructor
      · simp [handleMessage, route, routeSurveyOrBot, surveyNext, h, hc, hi]
      · simp [handleMessage, route, routeSurveyOrBot, h, hc, hi]

/-- C5 counterexample: in `waiting_seller_location`, the inbound text
`"menu"` — which happens to be a cancel keyword — is NOT consumed as the
answer: the session jumps to `bot` instead of advancing to
`waiting_seller_logistics`, and the effect list (shown in full) contains no
metadata write. -/
theorem C5_counterexample :
    (handleMessage 10
        ⟨.waiting_seller_location, s2l "unknown", none, none, [], 0⟩
        (.text (s2l "menu"))).1.status = .bot ∧
    Status.bot ≠ surveyNext .waiting_seller_location ∧
    (handleMessage 10
        ⟨.waiting_seller_location, s2l "unknown", none, none, [], 0⟩
        (.text (s2l "menu"))).2 =
      [Effect.dbTouchLastActive, .dbSetStatus .bot,
       .sendTG (s2l "survey cancelled"), .sendWA SHORT_WELCOME] := by
  refine ⟨by decide, by decide, by decide⟩

/-- Witness for `C5_survey_consumes` at a concrete survey session and a
concrete non-cancel answer text. -/
theorem C5_survey_consumes_witness :
    (∀ t, Effect.searchDispatched t ∉
      (handleMessage 10
        ⟨.waiting_seller_location, s2l "unknown", none, none, [], 0⟩
        (.text (s2l "rosario"))).2) ∧
    ((handleMessage 10
        ⟨.waiting_seller_location, s2l "unknown", none, none, [], 0⟩
        (.text (s2l "rosario"))).1.status = surveyNext .waiting_seller_location ∧
      ∃ ups, Effect.metadataUpdate ups ∈
        (handleMessage 10
          ⟨.waiting_seller_location, s2l "unknown", none, none, [], 0⟩
          (.text (s2l "rosario"))).2) := by
  have h := C5_survey_consumes 10
      ⟨.waiting_seller_location, s2l "unknown", none, none, [], 0⟩
      (.text (s2l "rosario")) (by decide)
  exact ⟨h.1, h.2 (by decide) (by decide)⟩


theorem humanStep_props (now : Int) (s : Session) (b : List Char)
    (hs : s.status = .human) (hgap : now - s.last_active_at ≤ 3600)
    (hb : pyStrip (pyLower b) ∉ HUMAN_KEYWORDS) :
    (handleMessage now s (.text b)).1.status = .human ∧
    (handleMessage now s (.text b)).1.last_active_at = now ∧
    (∀ t, Effect.searchDispatched t ∉ (handleMessage now s (.text b)).2) := by
  have hlt : ¬ (3600 < now - s.last_active_at) := by omega
  refine ⟨?_, ?_, ?_⟩ <;> simp [handleMessage, route, humanMode, hs, hb, hlt]

theorem humanStep_menu_props (now : Int) (s : Session)
    (hs : s.status = .human) (hgap : now - s.last_active_at ≤ 3600) :
    (handleMessage now s (.text (s2l "menu"))).1.status = .bot ∧
    (∀ t,
      Effect.searchDispatched t ∉ (handleMessage now s (.text (s2l "menu"))).2) := by
  have hlt : ¬ (3600 < now - s.last_active_at) := by omega
  have hk : pyStrip (pyLower (s2l "menu")) ∈ HUMAN_KEYWORDS := by decide
  refine ⟨?_, ?_⟩ <;> simp [handleMessage, route, humanMode, hs, hk, hlt]

/-- C6: a session in human mode ignores five arbitrary non-keyword texts —
its status stays `human` after each of them and none of the six events
dispatches a search — and the literal keyword `"menu"` as the sixth event
(all within the 60-minute inactivity window) flips it back to `bot`: the
mode changes exactly once, at the sixth event. -/
theorem C6_human_ignores_until_menu
    (s0 : Session) (h0 : s0.status = .human)
    (b1 b2 b3 b4 b5 : List Char)
    (hb1 : pyStrip (pyLower b1) ∉ HUMAN_KEYWORDS)
    (hb2 : pyStrip (pyLower b2) ∉ HUMAN_KEYWORDS)
    (hb3 : pyStrip (pyLower b3) ∉ HUMAN_KEYWORDS)
    (hb4 : pyStrip (pyLower b4) ∉ HUMAN_KEYWORDS)
    (hb5 : pyStrip (pyLower b5) ∉ HUMAN_KEYWORDS)
    (n1 n2 n3 n4 n5 n6 : Int)
    (g1 : n1 - s0.last_active_at ≤ 3600) (g2 : n2 - n1 ≤ 3600)
    (g3 : n3 - n2 ≤ 3600) (g4 : n4 - n3 ≤ 3600)
    (g5 : n5 - n4 ≤ 3600) (g6 : n6 - n5 ≤ 3600) :
    (handleMessage n1 s0 (.text b1)).1.status = .human ∧
    (handleMessage n2 (handleMessage n1 s0 (.text b1)).1
        (.text b2)).1.status = .human ∧
    (handleMessage n3 (handleMessage n2 (handleMessage n1 s0 (.text b1)).1
        (.text b2)).1 (.text b3)).1.status = .human ∧
    (handleMessage n4 (handleMessage n3 (handleMessage n2
        (handleMessage n1 s0 (.text b1)).1 (.text b2)).1 (.text b3)).1
        (.text b4)).1.status = .human ∧
    (handleMessage n5 (handleMessage n4 (handleMessage n3 (handleMessage n2
        (handleMessage n1 s0 (.text b1)).1 (.text b2)).1 (.text b3)).1
        (.text b4)).1 (.text b5)).1.status = .human ∧
    (handleMessage n6 (handleMessage n5 (handleMessage n4 (handleMessage n3
        (handleMessage n2 (handleMessage n1 s0 (.text b1)).1 (.text b2)).1
        (.text b3)).1 (.text b4)).1 (.text b5)).1
        (.text (s2l "menu"))).1.status = .bot ∧
    (∀ t,
      Effect.searchDispatched t ∉ (handleMessage n1 s0 (.text b1)).2 ∧
      Effect.searchDispatched t ∉
        (handleMessage n2 (handleMessage n1 s0 (.text b1)).1 (.text b2)).2 ∧
      Effect.searchDispatched t ∉
        (handleMessage n3 (handleMessage n2 (handleMessage n1 s0
          (.text b1)).1 (.text b2)).1 (.text b3)).2 ∧
      Effect.searchDispatched t ∉
        (handleMessage n4 (handleMessage n3 (handleMessage n2
          (handleMessage n1 s0 (.text b1)).1 (.text b2)).1 (.text b3)).1
          (.text b4)).2 ∧
      Effect.searchDispatched t ∉
        (handleMessage n5 (handleMessage n4 (handleMessage n3 (handleMessage n2
          (handleMessage n1 s0 (.text b1)).1 (.text b2)).1 (.text b3)).1
          (.text b4)).1 (.text b5)).2 ∧
      Effect.searchDispatched t ∉
        (handleMessage n6 (handleMessage n5 (handleMessage n4 (handleMessage n3
          (handleMessage n2 (handleMessage n1 s0 (.text b1)).1 (.text b2)).1
          (.text b3)).1 (.text b4)).1 (.text b5)).1
          (.text (s2l "menu"))).2) := by
  obtain ⟨p1s, p1l, p1n⟩ := humanStep_props n1 s0 b1 h0 g1 hb1
  obtain ⟨p2s, p2l, p2n⟩ :=
    humanStep_props n2 (handleMessage n1 s0 (.text b1)).1 b2 p1s
      (by rw [p1l]; exact g2) hb2
  obtain ⟨p3s, p3l, p3n⟩ :=
    humanStep_props n3 (handleMessage n2 (handleMessage n1 s0 (.text b1)).1
      (.text b2)).1 b3 p2s (by rw [p2l]; exact g3) hb3
  obtain ⟨p4s, p4l, p4n⟩ :=
    humanStep_props n4 (handleMessage n3 (handleMessage n2 (handleMessage n1 s0
      (.text b1)).1 (.text b2)).1 (.text b3)).1 b4 p3s
      (by rw [p3l]; exact g4) hb4
  obtain ⟨p5s, p5l, p5n⟩ :=
    humanStep_props n5 (handleMessage n4 (handleMessage n3 (handleMessage n2
      (handleMessage n1 s0 (.text b1)).1 (.text b2)).1 (.text b3)).1
      (.text b4)).1 b5 p4s (by rw [p4l]; exact g5) hb5
  obtain ⟨p6s, p6n⟩ :=
    humanStep_menu_props n6 (handleMessage n5 (handleMessage n4 (handleMessage n3
      (handleMessage n2 (handleMessage n1 s0 (.text b1)).1 (.text b2)).1
      (.text b3)).1 (.text b4)).1 (.text b5)).1 p5s (by rw [p5l]; exact g6)
  exact ⟨p1s, p2s, p3s, p4s, p5s, p6s,
    fun t => ⟨p1n t, p2n t, p3n t, p4n t, p5n t, p6n t⟩⟩

/-- Witness for `C6_human_ignores_until_menu` at a concrete human-mode
session, five concrete non-keyword texts, and six in-window timestamps. -/
theorem C6_human_ignores_until_menu_witness :
    (handleMessage 6
        (handleMessage 5 (handleMessage 4 (handleMessage 3 (handleMessage 2
          (handleMessage 1 ⟨.human, s2l "unknown", none, none, [], 0⟩
            (.text (s2l "hola bot"))).1 (.text (s2l "que tal"))).1
          (.text (s2l "gol 1.6"))).1 (.text (s2l "ayuda"))).1
          (.text (s2l "hilux 2015"))).1
        (.text (s2l "menu"))).1.status = .bot :=
  (C6_human_ignores_until_menu
    ⟨.human, s2l "unknown", none, none, [], 0⟩ (by decide)
    (s2l "hola bot") (s2l "que tal") (s2l "gol 1.6") (s2l "ayuda")
    (s2l "hilux 2015")
    (by decide) (by decide) (by decide) (by decide) (by decide)
    1 2 3 4 5 6
    (by decide) (by decide) (by decide) (by decide) (by decide)
    (by decide)).2.2.2.2.2.1

/-- C7: a global cancel received in any survey sub-state returns the session
to `bot`, leaves the user kind exactly as it was before, leaves the stored
metadata (the answers committed at completed steps) untouched, and the full
effect list — shown explicitly — writes no metadata and no user kind. -/
theorem C7_cancel_preserves_userKind (now : Int) (s : Session) (m : InMsg)
    (hs : s.status ∈ surveyStates) (hc : isCancelEvent m = true) :
    (handleMessage now s m).1.status = .bot ∧
    (handleMessage now s m).1.user_type = s.user_type ∧
    (handleMessage now s m).1.metadata = s.metadata ∧
    (handleMessage now s m).2 =
      [Effect.dbTouchLastActive, .dbSetStatus .bot,
       .sendTG (s2l "survey cancelled"), .sendWA SHORT_WELCOME] := by
  simp only [surveyStates, List.mem_cons, List.not_mem_nil, or_false] at hs
  rcases hs with h | h | h | h | h | h | h <;>
    simp [handleMessage, route, h, hc]

/-- Witness for `C7_cancel_preserves_userKind`: cancelling at
`waiting_seller_location` with the explicit cancel button, with answers from
the earlier steps already in the metadata bag. -/
theorem C7_cancel_preserves_userKind_witness :
    (handleMessage 10
        ⟨.waiting_seller_location, s2l "unknown", none, none,
          [(s2l "shop_name", s2l "repuestos lopez")], 0⟩
        (.buttonReply (s2l "btn_cancel_survey") (s2l "Cancelar"))).1.status =
      .bot ∧
    (handleMessage 10
        ⟨.waiting_seller_location, s2l "unknown", none, none,
          [(s2l "shop_name", s2l "repuestos lopez")], 0⟩
        (.buttonReply (s2l "btn_cancel_survey") (s2l "Cancelar"))).1.user_type =
      s2l "unknown" ∧
    (handleMessage 10
        ⟨.waiting_seller_location, s2l "unknown", none, none,
          [(s2l "shop_name", s2l "repuestos lopez")], 0⟩
        (.buttonReply (s2l "btn_cancel_survey") (s2l "Cancelar"))).1.metadata =
      [(s2l "shop_name", s2l "repuestos lopez")] := by
  have h := C7_cancel_preserves_userKind 10
      ⟨.waiting_seller_location, s2l "unknown", none, none,
        [(s2l "shop_name", s2l "repuestos lopez")], 0⟩
      (.buttonReply (s2l "btn_cancel_survey") (s2l "Cancelar"))
      (by decide) (by decide)
  exact ⟨h.1, h.2.1, h.2.2.1⟩

/-- C8: an inbound event discarded by the staleness guard (provider
timestamp older than 300 seconds) or by the duplicate guard (identifier
already in the most-recent-1000 cache) leaves the cache and the session
exactly as they were and produces no effect at all — no store mutation and
no outbound send. -/
theorem C8_guards_side_effect_free (now : Int) (cache : List (List Char))
    (s : Session) (ev : Event)
    (h : now - ev.timestamp > 300 ∨ ev.msgId ∈ cache) :
    processEvent now cache s ev = (cache, s, []) := by
  unfold processEvent
  rcases h with h | h
  · rw [if_pos h]
  · by_cases hst : now - ev.timestamp > 300
    · rw [if_pos hst]
    · rw [if_neg hst, if_pos h]

/-- Witness for `C8_guards_side_effect_free`: the second delivery of an
already-cached identifier is a complete no-op. -/
theorem C8_guards_side_effect_free_witness :
    processEvent 0 [s2l "wamid.1"]
      ⟨.bot, s2l "unknown", none, none, [], 0⟩
      ⟨.text (s2l "hola"), 0, s2l "wamid.1"⟩ =
    ([s2l "wamid.1"], ⟨.bot, s2l "unknown", none, none, [], 0⟩, []) :=
  C8_guards_side_effect_free 0 [s2l "wamid.1"]
    ⟨.bot, s2l "unknown", none, none, [], 0⟩
    ⟨.text (s2l "hola"), 0, s2l "wamid.1"⟩ (Or.inr (by decide))

/-- C2 counterexample: parsing is NOT idempotent on the parser's own
normalized output.  The synonym pass is a literal substring replacement, so
`"vw"` becomes `"volkswagen"` and then, still inside the same pass,
`"volks"` re-fires and yields the token `"volkswagenwagen"`; re-parsing that
rendered output fires `"volks"` again and produces the different token
`"volkswagenwagenwagen"`. -/
theorem C2_counterexample :
    parse_search_query (s2l "vw") =
      .result ⟨[s2l "volkswagenwagen"], none, none⟩ ∧
    parse_search_query (renderQuery ⟨[s2l "volkswagenwagen"], none, none⟩) =
      .result ⟨[s2l "volkswagenwagenwagen"], none, none⟩ ∧
    ParsedQuery.mk [s2l "volkswagenwagenwagen"] none none ≠
      ⟨[s2l "volkswagenwagen"], none, none⟩ := by
  refine ⟨by rfl, by rfl, by decide⟩

theorem replaceFuel_of_not_contains (f : Nat) (s old new : List Char)
    (h : containsSub old s = false) : replaceFuel f s old new = s := by
  induction f generalizing s with
  | zero => rfl
  | succ f ih =>
    cases s with
    | nil => rfl
    | cons c rest =>
      rw [containsSub, Bool.or_eq_false_iff] at h
      rw [replaceFuel, if_neg, ih rest h.2]
      rintro ⟨-, hp⟩
      rw [h.1] at hp
      exact Bool.noConfusion hp

theorem pyReplace_of_not_contains (s old new : List Char)
    (h : containsSub old s = false) : pyReplace s old new = s :=
  replaceFuel_of_not_contains s.length s old new h

theorem mem_replaceFuel (f : Nat) (s old new : List Char) (c : Char)
    (h : c ∈ replaceFuel f s old new) : c ∈ s ∨ c ∈ new := by
  induction f generalizing s with
  | zero => exact Or.inl h
  | succ f ih =>
    cases s with
    | nil =>
      rw [replaceFuel] at h
      exact absurd h (List.not_mem_nil c)
    | cons x rest =>
      rw [replaceFuel] at h
      split at h
      · rcases List.mem_append.mp h with h1 | h1
        · exact Or.inr h1
        · rcases ih _ h1 with h2 | h2
          · exact Or.inl (List.drop_subset _ _ h2)
          · exact Or.inr h2
      · rcases List.mem_cons.mp h with h1 | h1
        · exact Or.inl (h1 ▸ List.mem_cons_self x rest)
        · rcases ih rest h1 with h2 | h2
          · exact Or.inl (List.mem_cons_of_mem x h2)
          · exact Or.inr h2

theorem not_mem_replaceFuel_single (f : Nat) (s new : List Char) (a : Char)
    (hnew : a ∉ new) (hf : s.length ≤ f) : a ∉ replaceFuel f s [a] new := by
  induction f generalizing s with
  | zero =>
    cases s with
    | nil => intro h; exact absurd h (List.not_mem_nil a)
    | cons c rest => simp at hf
  | succ f ih =>
    cases s with
    | nil => intro h; exact absurd h (List.not_mem_nil a)
    | cons c rest =>
      rw [replaceFuel]
      split
      · next hcond =>
        intro hmem
        rcases List.mem_append.mp hmem with h1 | h1
        · exact hnew h1
        · have hlen : ((c :: rest).drop [a].length).length ≤ f := by
            rw [List.length_drop]
            simp at hf ⊢
            omega
          exact ih _ hlen h1
      · next hcond =>
        have hca : ¬ (c = a) := by
          intro hc
          exact hcond ⟨by simp, by simp [hc, List.isPrefixOf]⟩
        intro hmem
        rcases List.mem_cons.mp hmem with h1 | h1
        · exact hca h1.symm
        · have hlen : rest.length ≤ f := by
            simp at hf; omega
          exact ih rest hlen h1

theorem dropWhile_subset_self {p : Char → Bool} {l : List Char} :
    l.dropWhile p ⊆ l :=
  (List.dropWhile_sublist p (l := l)).subset

theorem takeWhile_subset_self {p : Char → Bool} {l : List Char} :
    l.takeWhile p ⊆ l :=
  (List.takeWhile_sublist p (l := l)).subset

theorem commaSubFuel_no_comma (f : Nat) (s : List Char) (h : ',' ∉ s) :
    commaSubFuel f s = s := by
  induction f generalizing s with
  | zero => rfl
  | succ f ih =>
    cases s with
    | nil => rfl
    | cons c rest =>
      have hrest : ',' ∉ rest := fun hm => h (List.mem_cons_of_mem c hm)
      rw [commaSubFuel]
      split
      · next =>
        split
        · next d r4 heq =>
          exact absurd
            (dropWhile_subset_self (heq ▸ List.mem_cons_self ',' (d :: r4))) h
        · next => rw [ih rest hrest]
      · next => rw [ih rest hrest]

theorem commaSub_no_comma (s : List Char) (h : ',' ∉ s) : commaSub s = s :=
  commaSubFuel_no_comma s.length s h

theorem mem_commaSubFuel (f : Nat) (s : List Char) (c : Char)
    (h : c ∈ commaSubFuel f s) : c ∈ s ∨ c = '.' := by
  induction f generalizing s with
  | zero => exact Or.inl h
  | succ f ih =>
    cases s with
    | nil => exact Or.inl h
    | cons x rest =>
      rw [commaSubFuel] at h
      split at h
      · split at h
        · next d r4 heq =>
          split at h
          · have hsub : (d :: r4) ⊆ x :: rest := by
              intro y hy
              exact dropWhile_subset_self (heq ▸ List.mem_cons_of_mem ',' hy)
            rcases List.mem_append.mp h with h1 | h1
            · rcases List.mem_append.mp h1 with h2 | h2
              · exact Or.inl (takeWhile_subset_self h2)
              · rcases List.mem_cons.mp h2 with h3 | h3
                · exact Or.inr h3
                · exact Or.inl (hsub (takeWhile_subset_self h3))
            · rcases ih _ h1 with h4 | h4
              · exact Or.inl (hsub (dropWhile_subset_self h4))
              · exact Or.inr h4
          · rcases List.mem_cons.mp h with h1 | h1
            · exact Or.inl (h1 ▸ List.mem_cons_self x rest)
            · rcases ih rest h1 with h2 | h2
              · exact Or.inl (List.mem_cons_of_mem x h2)
              · exact Or.inr h2
        · rcases List.mem_cons.mp h with h1 | h1
          · exact Or.inl (h1 ▸ List.mem_cons_self x rest)
          · rcases ih rest h1 with h2 | h2
            · exact Or.inl (List.mem_cons_of_mem x h2)
            · exact Or.inr h2
      · rcases List.mem_cons.mp h with h1 | h1
        · exact Or.inl (h1 ▸ List.mem_cons_self x rest)
        · rcases ih rest h1 with h2 | h2
          · exact Or.inl (List.mem_cons_of_mem x h2)
          · exact Or.inr h2

theorem mem_commaSub (s : List Char) (c : Char) (h : c ∈ commaSub s) :
    c ∈ s ∨ c = '.' :=
  mem_commaSubFuel s.length s c h

theorem containsSub_single_of_not_mem (a : Char) (s : List Char) (h : a ∉ s) :
    containsSub [a] s = false := by
  induction s with
  | nil => rfl
  | cons c rest ih =>
    have hrest : a ∉ rest := fun hm => h (List.mem_cons_of_mem c hm)
    have hca : (a == c) = false := by
      simp only [beq_eq_false_iff_ne, ne_eq]
      intro hac
      exact h (hac ▸ List.mem_cons_self c rest)
    rw [containsSub, ih hrest, Bool.or_false]
    simp [List.isPrefixOf, hca]

theorem map_id_of_mem {f : Char → Char} {l : List Char}
    (h : ∀ c ∈ l, f c = c) : l.map f = l := by
  induction l with
  | nil => rfl
  | cons c rest ih =>
    rw [List.map_cons, h c (List.mem_cons_self c rest),
      ih fun x hx => h x (List.mem_cons_of_mem c hx)]

theorem mem_of_map_id {f : Char → Char} {l : List Char}
    (h : l.map f = l) : ∀ c ∈ l, f c = c := by
  induction l with
  | nil => intro c hc; exact absurd hc (List.not_mem_nil c)
  | cons x rest ih =>
    rw [List.map_cons] at h
    injection h with h1 h2
    intro c hc
    rcases List.mem_cons.mp hc with h3 | h3
    · exact h3 ▸ h1
    · exact ih h2 c h3

theorem lowerChar_eq_of_no_key (c : Char)
    (h : ∀ p ∈ lowerPairs, p.1 ≠ c) : lowerChar c = c := by
  unfold lowerChar
  rcases hf : lowerPairs.find? (fun p => p.1 == c) with _ | p
  · rw [hf]
  · have hp := List.find?_some hf
    have hmem := List.mem_of_find?_eq_some hf
    exact absurd (beq_iff_eq.mp hp) (h p hmem)

theorem lowerChar_idem (c : Char) : lowerChar (lowerChar c) = lowerChar c := by
  rcases hf : lowerPairs.find? (fun p => p.1 == c) with _ | p
  · have h1 : lowerChar c = c := by unfold lowerChar; rw [hf]
    rw [h1]
    exact h1
  · have h1 : lowerChar c = p.2 := by unfold lowerChar; rw [hf]
    rw [h1]
    have hmem := List.mem_of_find?_eq_some hf
    have hval : ∀ p ∈ lowerPairs, ∀ q ∈ lowerPairs, q.1 ≠ p.2 := by decide
    exact lowerChar_eq_of_no_key p.2 (fun q hq => hval p hmem q hq)

theorem digitChar_not_key (c : Char) (h : isDigitChar c = true) :
    lowerChar c = c := by
  apply lowerChar_eq_of_no_key
  intro p hp hpc
  have hall : ∀ p ∈ lowerPairs, isDigitChar p.1 = false := by decide
  have h2 := hall p hp
  rw [hpc, h] at h2
  exact Bool.noConfusion h2

theorem getLast?_mem {α : Type} {l : List α} {a : α} (h : l.getLast? = some a) :
    a ∈ l := by
  induction l with
  | nil => exact absurd h (by simp)
  | cons x rest ih =>
    cases rest with
    | nil =>
      simp only [List.getLast?_singleton, Option.some.injEq] at h
      exact h ▸ List.mem_cons_self x []
    | cons y rest2 =>
      rw [List.getLast?_cons_cons] at h
      exact List.mem_cons_of_mem x (ih h)

theorem splitAux_props (s acc : List Char) (P : Char → Prop)
    (hs : ∀ c ∈ s, P c) (hacc : ∀ c ∈ acc, P c ∧ isSpaceChar c = false) :
    ∀ t ∈ splitAux s acc, t ≠ [] ∧ ∀ c ∈ t, P c ∧ isSpaceChar c = false := by
  induction s generalizing acc with
  | nil =>
    intro t ht
    rw [splitAux] at ht
    split at ht
    · exact absurd ht (List.not_mem_nil t)
    · next hne =>
      rcases List.mem_cons.mp ht with h1 | h1
      · subst h1
        refine ⟨?_, ?_⟩
        · intro hrev
          rw [List.reverse_eq_nil_iff] at hrev
          rw [hrev] at hne
          exact hne rfl
        · intro c hc
          exact hacc c (List.mem_reverse.mp hc)
      · exact absurd h1 (List.not_mem_nil t)
  | cons c rest ih =>
    intro t ht
    have hrest : ∀ x ∈ rest, P x := fun x hx => hs x (List.mem_cons_of_mem c hx)
    rw [splitAux] at ht
    split at ht
    · next hsp =>
      split at ht
      · exact ih [] hrest (by intro x hx; exact absurd hx (List.not_mem_nil x)) t ht
      · next hne =>
        rcases List.mem_cons.mp ht with h1 | h1
        · subst h1
          refine ⟨?_, ?_⟩
          · intro hrev
            rw [List.reverse_eq_nil_iff] at hrev
            rw [hrev] at hne
            exact hne (by rfl)
          · intro x hx
            exact hacc x (List.mem_reverse.mp hx)
        · exact ih [] hrest (by intro x hx; exact absurd hx (List.not_mem_nil x)) t h1
    · next hsp =>
      refine ih (c :: acc) hrest ?_ t ht
      intro x hx
      rcases List.mem_cons.mp hx with h1 | h1
      · subst h1
        exact ⟨hs x (List.mem_cons_self x rest), by simpa using hsp⟩
      · exact hacc x h1

theorem pySplit_props (s : List Char) (P : Char → Prop) (hs : ∀ c ∈ s, P c) :
    ∀ t ∈ pySplit s, t ≠ [] ∧ ∀ c ∈ t, P c ∧ isSpaceChar c = false :=
  splitAux_props s [] P hs (by intro c hc; exact absurd hc (List.not_mem_nil c))

theorem splitAux_chunk (p rest acc : List Char)
    (hp : ∀ c ∈ p, isSpaceChar c = false) :
    splitAux (p ++ rest) acc = splitAux rest (p.reverse ++ acc) := by
  induction p generalizing acc with
  | nil => rw [List.nil_append, List.reverse_nil, List.nil_append]
  | cons c cs ih =>
    rw [List.cons_append, splitAux,
      if_neg (by rw [hp c (List.mem_cons_self c cs)]; exact Bool.noConfusion),
      ih (c :: acc) (fun x hx => hp x (List.mem_cons_of_mem c hx)),
      List.reverse_cons, List.append_assoc, List.singleton_append]

theorem pySplit_joinSpace (ps : List (List Char))
    (h : ∀ t ∈ ps, t ≠ [] ∧ ∀ c ∈ t, isSpaceChar c = false) :
    pySplit (joinSpace ps) = ps := by
  induction ps with
  | nil => rfl
  | cons p ps ih =>
    obtain ⟨hpne, hpch⟩ := h p (List.mem_cons_self p ps)
    cases ps with
    | nil =>
      show splitAux (joinSpace [p]) [] = [p]
      rw [joinSpace]
      rw [show p = p ++ [] from (List.append_nil p).symm] 
      rw [splitAux_chunk p [] [] (by
        intro c hc
        exact hpch c (by simpa using hc))]
      rw [splitAux, List.append_nil, if_neg (by
        simp only [List.isEmpty_eq_true, List.reverse_eq_nil_iff]
        exact by simpa using hpne)]
      rw [List.reverse_reverse]
      simp
    | cons q qs =>
      have hrest : ∀ t ∈ q :: qs, t ≠ [] ∧ ∀ c ∈ t, isSpaceChar c = false :=
        fun t ht => h t (List.mem_cons_of_mem p ht)
      show splitAux (joinSpace (p :: q :: qs)) [] = p :: q :: qs
      rw [show joinSpace (p :: q :: qs) = p ++ ' ' :: joinSpace (q :: qs)
          from rfl,
        splitAux_chunk p (' ' :: joinSpace (q :: qs)) [] hpch,
        List.append_nil, splitAux, if_pos (by decide), if_neg (by
          simp only [List.isEmpty_eq_true, List.reverse_eq_nil_iff]
          exact hpne)]
      rw [List.reverse_reverse]
      exact congrArg (p :: ·) (ih hrest)

theorem foldl_replace_chars (ps : List (List Char × List Char))
    (s : List Char) (P : Char → Prop) (hs : ∀ c ∈ s, P c)
    (hv : ∀ kv ∈ ps, ∀ c ∈ kv.2, P c) :
    ∀ c ∈ ps.foldl (fun acc kv => pyReplace acc kv.1 kv.2) s, P c := by
  induction ps generalizing s with
  | nil => exact hs
  | cons kv ps ih =>
    rw [List.foldl_cons]
    refine ih (pyReplace s kv.1 kv.2) ?_ (fun p hp => hv p (List.mem_cons_of_mem kv hp))
    intro c hc
    rcases mem_replaceFuel _ _ _ _ _ hc with h1 | h1
    · exact hs c h1
    · exact hv kv (List.mem_cons_self kv ps) c h1

theorem normalizeText_chars (text : List Char) :
    ∀ c ∈ normalizeText text,
      lowerChar c = c ∧ c ≠ ',' ∧ c ≠ '(' ∧ c ≠ ')' ∧ c ≠ '\'' := by
  have h0 : ∀ c ∈ pyLower text, lowerChar c = c := by
    intro c hc
    rcases List.mem_map.mp hc with ⟨x, -, hx⟩
    exact hx ▸ lowerChar_idem x
  have h1 : ∀ c ∈ commaSub (pyLower text), lowerChar c = c := by
    intro c hc
    rcases mem_commaSub _ _ hc with h | h
    · exact h0 c h
    · subst h; decide
  have h2 : ∀ c ∈ pyReplace (commaSub (pyLower text)) [','] [],
      lowerChar c = c ∧ c ≠ ',' := by
    intro c hc
    refine ⟨?_, ?_⟩
    · rcases mem_replaceFuel _ _ _ _ _ hc with h | h
      · exact h1 c h
      · exact absurd h (List.not_mem_nil c)
    · intro hcc
      subst hcc
      exact not_mem_replaceFuel_single _ _ _ ','
        (List.not_mem_nil ',') (le_refl _) hc
  have h3 : ∀ c ∈ pyReplace (pyReplace (commaSub (pyLower text)) [','] [])
      ['('] [], lowerChar c = c ∧ c ≠ ',' ∧ c ≠ '(' := by
    intro c hc
    have hm : c ∈ pyReplace (commaSub (pyLower text)) [','] [] ∨ c ∈ ([] : List Char) :=
      mem_replaceFuel _ _ _ _ _ hc
    rcases hm with h | h
    · refine ⟨(h2 c h).1, (h2 c h).2, ?_⟩
      intro hcc
      subst hcc
      exact not_mem_replaceFuel_single _ _ _ '('
        (List.not_mem_nil '(') (le_refl _) hc
    · exact absurd h (List.not_mem_nil c)
  have h4 : ∀ c ∈ pyReplace (pyReplace (pyReplace (commaSub (pyLower text))
      [','] []) ['('] []) [')'] [],
      lowerChar c = c ∧ c ≠ ',' ∧ c ≠ '(' ∧ c ≠ ')' := by
    intro c hc
    have hm := mem_replaceFuel _ _ _ _ _ hc
    rcases hm with h | h
    · refine ⟨(h3 c h).1, (h3 c h).2.1, (h3 c h).2.2, ?_⟩
      intro hcc
      subst hcc
      exact not_mem_replaceFuel_single _ _ _ ')'
        (List.not_mem_nil ')') (le_refl _) hc
    · exact absurd h (List.not_mem_nil c)
  have h5 : ∀ c ∈ pyReplace (pyReplace (pyReplace (pyReplace (commaSub
      (pyLower text)) [','] []) ['('] []) [')'] []) ['\''] [],
      lowerChar c = c ∧ c ≠ ',' ∧ c ≠ '(' ∧ c ≠ ')' ∧ c ≠ '\'' := by
    intro c hc
    have hm := mem_replaceFuel _ _ _ _ _ hc
    rcases hm with h | h
    · refine ⟨(h4 c h).1, (h4 c h).2.1, (h4 c h).2.2.1, (h4 c h).2.2.2, ?_⟩
      intro hcc
      subst hcc
      exact not_mem_replaceFuel_single _ _ _ '\''
        (List.not_mem_nil '\'') (le_refl _) hc
    · exact absurd h (List.not_mem_nil c)
  unfold normalizeText applySynonyms
  refine foldl_replace_chars SYNONYMS _ _ h5 ?_
  decide

theorem tokensOf_props (text : List Char) :
    ∀ t ∈ tokensOf text, t ≠ [] ∧ ∀ c ∈ t,
      (lowerChar c = c ∧ c ≠ ',' ∧ c ≠ '(' ∧ c ≠ ')' ∧ c ≠ '\'') ∧
        isSpaceChar c = false :=
  pySplit_props (normalizeText text) _ (normalizeText_chars text)

theorem mem_joinSpace (ps : List (List Char)) (c : Char)
    (h : c ∈ joinSpace ps) : c = ' ' ∨ ∃ p ∈ ps, c ∈ p := by
  induction ps with
  | nil => exact absurd h (List.not_mem_nil c)
  | cons p ps ih =>
    cases ps with
    | nil => exact Or.inr ⟨p, List.mem_cons_self p [], h⟩
    | cons q qs =>
      rw [show joinSpace (p :: q :: qs) = p ++ ' ' :: joinSpace (q :: qs)
          from rfl] at h
      rcases List.mem_append.mp h with h1 | h1
      · exact Or.inr ⟨p, List.mem_cons_self p _, h1⟩
      · rcases List.mem_cons.mp h1 with h2 | h2
        · exact Or.inl h2
        · rcases ih h2 with h3 | ⟨r, hr, hcr⟩
          · exact Or.inl h3
          · exact Or.inr ⟨r, List.mem_cons_of_mem p hr, hcr⟩

theorem splitFirst_eq_some (p : Char → Bool) (s a : List Char) (x : Char)
    (b : List Char) (h : splitFirst p s = some (a, x, b)) :
    s = a ++ x :: b ∧ p x = true ∧ ∀ c ∈ a, p c = false := by
  induction s generalizing a with
  | nil => exact absurd h (by rw [splitFirst]; exact Option.noConfusion)
  | cons c rest ih =>
    rw [splitFirst] at h
    split at h
    · next hp =>
      injection h with h1
      injection h1 with ha h2
      injection h2 with hx hb
      subst ha; subst hx; subst hb
      exact ⟨rfl, hp, fun c hc => absurd hc (List.not_mem_nil c)⟩
    · next hp =>
      rcases Option.map_eq_some'.mp h with ⟨⟨a', x', b'⟩, hsf, heq⟩
      injection heq with h1 h2
      injection h2 with hx hb
      subst hx; subst hb
      obtain ⟨hs, hpx, hpa⟩ := ih a' hsf
      subst h1
      refine ⟨by rw [List.cons_append, hs], hpx, ?_⟩
      intro d hd
      rcases List.mem_cons.mp hd with h3 | h3
      · subst h3
        exact Bool.eq_false_iff.mpr hp
      · exact hpa d h3

theorem splitFirst_build (p : Char → Bool) (a : List Char) (x : Char)
    (b : List Char) (ha : ∀ c ∈ a, p c = false) (hx : p x = true) :
    splitFirst p (a ++ x :: b) = some (a, x, b) := by
  induction a with
  | nil =>
    rw [List.nil_append, splitFirst, if_pos hx]
  | cons c cs ih =>
    rw [List.cons_append, splitFirst,
      if_neg (by rw [ha c (List.mem_cons_self c cs)]; exact Bool.noConfusion),
      ih fun d hd => ha d (List.mem_cons_of_mem c hd)]
    rfl

theorem splitFirst_none_of (p : Char → Bool) (s : List Char)
    (h : ∀ c ∈ s, p c = false) : splitFirst p s = none := by
  induction s with
  | nil => rfl
  | cons c rest ih =>
    rw [splitFirst,
      if_neg (by rw [h c (List.mem_cons_self c rest)]; exact Bool.noConfusion),
      ih fun d hd => h d (List.mem_cons_of_mem c hd)]
    rfl

theorem signSplit_cases (s : List Char) :
    ((signSplit s).1 = false ∧ (signSplit s).2 = s) ∨
      (∃ c r, (c = '+' ∨ c = '-') ∧ s = c :: r ∧ (signSplit s).2 = r) := by
  unfold signSplit
  split
  · next r => exact Or.inr ⟨'+', r, Or.inl rfl, rfl, rfl⟩
  · next r => exact Or.inr ⟨'-', r, Or.inr rfl, rfl, rfl⟩
  · exact Or.inl ⟨rfl, rfl⟩

theorem mantissaQ_chars (s : List Char) (v : ℚ) (h : mantissaQ s = some v) :
    ∀ c ∈ s, isDigitChar c = true ∨ c = '.' := by
  unfold mantissaQ at h
  split at h
  · split at h
    · next hd =>
      unfold pyIsDigit at hd
      rw [Bool.and_eq_true, List.all_eq_true] at hd
      exact fun c hc => Or.inl (hd.2 c hc)
    · exact Option.noConfusion h
  · next a x b heq =>
    split at h
    · next hd =>
      obtain ⟨hs, hpx, -⟩ := splitFirst_eq_some _ _ _ _ _ heq
      rw [Bool.and_eq_true, Bool.and_eq_true] at hd
      intro c hc
      rw [hs] at hc
      rcases List.mem_append.mp hc with h1 | h1
      · exact Or.inl (List.all_eq_true.mp hd.1.1 c h1)
      · rcases List.mem_cons.mp h1 with h2 | h2
        · exact Or.inr (h2.trans (beq_iff_eq.mp hpx))
        · exact Or.inl (List.all_eq_true.mp hd.1.2 c h2)
    · exact Option.noConfusion h

theorem expVal_chars (s : List Char) (i : Int) (h : expVal s = some i) :
    ∀ c ∈ s, isDigitChar c = true ∨ c = '+' ∨ c = '-' := by
  simp only [expVal] at h
  split at h
  · next hd =>
    unfold pyIsDigit at hd
    rw [Bool.and_eq_true, List.all_eq_true] at hd
    intro c hc
    rcases signSplit_cases s with ⟨-, hr2⟩ | ⟨x, r, hx, hsr, hr2⟩
    · exact Or.inl (hd.2 c (by rw [hr2]; exact hc))
    · rw [hsr] at hc
      rcases List.mem_cons.mp hc with h1 | h1
      · subst h1
        exact Or.inr hx
      · exact Or.inl (hd.2 c (by rw [hr2]; exact h1))
  · exact Option.noConfusion h

theorem pythonFloat_chars (s : List Char) (v : ℚ) (h : pythonFloat s = some v) :
    ∀ c ∈ s, isDigitChar c = true ∨ c ∈ ['.', '+', '-', 'e', 'E'] := by
  have hrest : ∀ c ∈ (signSplit s).2,
      isDigitChar c = true ∨ c ∈ ['.', '+', '-', 'e', 'E'] := by
    simp only [pythonFloat] at h
    split at h
    · rcases Option.map_eq_some'.mp h with ⟨mv, hm, -⟩
      intro c hc
      rcases mantissaQ_chars _ _ hm c hc with h1 | h1
      · exact Or.inl h1
      · subst h1; right; decide
    · next m x ex heq =>
      split at h
      · next mv ev hm he =>
        obtain ⟨hs2, hpx, -⟩ := splitFirst_eq_some _ _ _ _ _ heq
        intro c hc
        rw [hs2] at hc
        rcases List.mem_append.mp hc with h1 | h1
        · rcases mantissaQ_chars _ _ hm c h1 with h2 | h2
          · exact Or.inl h2
          · subst h2; right; decide
        · rcases List.mem_cons.mp h1 with h2 | h2
          · have hxe : x = 'e' ∨ x = 'E' := by simpa using hpx
            subst h2
            rcases hxe with h3 | h3 <;> (rw [h3]; right; decide)
          · rcases expVal_chars _ _ he c h2 with h3 | h3 | h3
            · exact Or.inl h3
            · subst h3; right; decide
            · subst h3; right; decide
      · exact Option.noConfusion h
  intro c hc
  rcases signSplit_cases s with ⟨-, hr2⟩ | ⟨x, r, hx, hsr, hr2⟩
  · exact hrest c (by rw [hr2]; exact hc)
  · rw [hsr] at hc
    rcases List.mem_cons.mp hc with h1 | h1
    · subst h1
      rcases hx with h2 | h2 <;> (subst h2; right; decide)
    · exact hrest c (by rw [hr2]; exact h1)

theorem mantissaQ_append_dot0 (s : List Char) (v : ℚ)
    (h : mantissaQ s = some v) (hdot : '.' ∉ s) :
    mantissaQ (s ++ ['.', '0']) = some v := by
  have hnone : splitFirst (fun c => c == '.') s = none := by
    apply splitFirst_none_of
    intro c hc
    simp only [beq_eq_false_iff_ne, ne_eq]
    intro hcc
    exact hdot (hcc ▸ hc)
  unfold mantissaQ at h
  rw [hnone] at h
  split at h
  · split at h
    · next hd =>
      injection h with hv
      unfold pyIsDigit at hd
      rw [Bool.and_eq_true] at hd
      have hbuild : splitFirst (fun c => c == '.') (s ++ '.' :: ['0']) =
          some (s, '.', ['0']) := by
        apply splitFirst_build
        · intro c hc
          simp only [beq_eq_false_iff_ne, ne_eq]
          intro hcc
          exact hdot (hcc ▸ hc)
        · decide
      have h0 : digitsToNat ['0'] = 0 := by decide
      have hval : mantissaQ (s ++ ['.', '0']) =
          some ((digitsToNat s : ℚ) +
            (digitsToNat ['0'] : ℚ) / (10 : ℚ) ^ (['0'] : List Char).length) := by
        simp only [mantissaQ, show s ++ ['.', '0'] = s ++ '.' :: ['0'] from rfl,
          hbuild]
        rw [if_pos]
        rw [hd.2]
        simp
        decide
      rw [hval, h0, ← hv]
      norm_num
    · exact Option.noConfusion h
  · next heq => exact Option.noConfusion heq

theorem signSplit_sub (s : List Char) : ∀ c ∈ (signSplit s).2, c ∈ s := by
  unfold signSplit
  split
  · next r => exact fun c hc => List.mem_cons_of_mem '+' hc
  · next r => exact fun c hc => List.mem_cons_of_mem '-' hc
  · exact fun c hc => hc

theorem pythonFloat_empty : pythonFloat [] = none := rfl

theorem signSplit_append_cons (c : Char) (t r : List Char) :
    signSplit ((c :: t) ++ r) =
      ((signSplit (c :: t)).1, (signSplit (c :: t)).2 ++ r) := by
  by_cases h1 : c = '+'
  · subst h1; rfl
  · by_cases h2 : c = '-'
    · subst h2; rfl
    · have key : ∀ (x : List Char), signSplit (c :: x) = (false, c :: x) := by
        intro x
        unfold signSplit
        split
        · next r' heq => injection heq with hc _; exact absurd hc h1
        · next r' heq => injection heq with hc _; exact absurd hc h2
        · rfl
      rw [List.cons_append, key (t ++ r), key t]
      rfl

theorem pythonFloat_append_dot0 (s : List Char) (v : ℚ)
    (h : pythonFloat s = some v) (hdot : '.' ∉ s) (he : 'e' ∉ s)
    (hE : 'E' ∉ s) : pythonFloat (s ++ ['.', '0']) = some v := by
  cases s with
  | nil => rw [pythonFloat_empty] at h; exact Option.noConfusion h
  | cons c t =>
    have hsub : ∀ x ∈ (signSplit (c :: t)).2, x ∈ c :: t := signSplit_sub _
    have hnoE : splitFirst (fun x => x == 'e' || x == 'E')
        (signSplit (c :: t)).2 = none := by
      apply splitFirst_none_of
      intro x hx
      have hxm := hsub x hx
      simp only [Bool.or_eq_false_iff, beq_eq_false_iff_ne, ne_eq]
      constructor
      · intro hxx; exact he (hxx ▸ hxm)
      · intro hxx; exact hE (hxx ▸ hxm)
    have hnoE2 : splitFirst (fun x => x == 'e' || x == 'E')
        ((signSplit (c :: t)).2 ++ ['.', '0']) = none := by
      apply splitFirst_none_of
      intro x hx
      rcases List.mem_append.mp hx with h1 | h1
      · have hxm := hsub x h1
        simp only [Bool.or_eq_false_iff, beq_eq_false_iff_ne, ne_eq]
        constructor
        · intro hxx; exact he (hxx ▸ hxm)
        · intro hxx; exact hE (hxx ▸ hxm)
      · rcases List.mem_cons.mp h1 with h2 | h2
        · subst h2; rfl
        · rcases List.mem_cons.mp h2 with h3 | h3
          · subst h3; rfl
          · exact absurd h3 (List.not_mem_nil x)
    simp only [pythonFloat, hnoE] at h
    rcases Option.map_eq_some'.mp h with ⟨mv, hm, hmv⟩
    have hdotr : '.' ∉ (signSplit (c :: t)).2 := fun hx => hdot (hsub '.' hx)
    have hm2 := mantissaQ_append_dot0 _ _ hm hdotr
    simp only [pythonFloat, signSplit_append_cons, hnoE2, hm2,
      Option.map_eq_some']
    exact ⟨mv, rfl, hmv⟩

theorem engineNormFloat_inv (norm e : List Char)
    (h : engineNormFloat norm = some e) :
    ∃ v, pythonFloat norm = some v ∧ (1 / 2 : ℚ) ≤ v ∧ v ≤ 16 ∧
      e = (if '.' ∈ norm then norm else norm ++ ['.', '0']) := by
  unfold engineNormFloat at h
  split at h
  · exact Option.noConfusion h
  · next v hpf =>
    split at h
    · next hdot =>
      split at h
      · next hr =>
        injection h with he
        exact ⟨v, hpf, hr.1, hr.2, by rw [if_pos hdot]; exact he.symm⟩
      · exact Option.noConfusion h
    · next hdot =>
      split at h
      · next hr =>
        injection h with he
        exact ⟨v, hpf, hr.1, hr.2, by rw [if_neg hdot]; exact he.symm⟩
      · exact Option.noConfusion h

theorem engineNormTC_inv (tc : List Char) (isL : Bool) (e : List Char)
    (h : engineNormTC tc isL = some e) :
    engineNormFloat (tc.map (fun c => if c == ',' then '.' else c)) = some e := by
  unfold engineNormTC at h
  split at h
  · exact h
  · exact Option.noConfusion h

theorem engineNorm_inv (t e : List Char) (h : engineNorm t = some e) :
    ∃ tc isL, engineNormTC tc isL = some e ∧ tc ⊆ pyLower t := by
  unfold engineNorm at h
  split at h
  · unfold engineNormL at h
    split at h
    · exact ⟨(pyLower t).dropLast, true, h, (List.dropLast_sublist _).subset⟩
    · exact ⟨pyLower t, false, h, fun c hc => hc⟩
  · exact Option.noConfusion h

theorem engineNorm_shape (t e : List Char) (h : engineNorm t = some e) :
    ∃ norm v, pythonFloat norm = some v ∧ (1 / 2 : ℚ) ≤ v ∧ v ≤ 16 ∧
      e = (if '.' ∈ norm then norm else norm ++ ['.', '0']) ∧
      (∀ c ∈ norm, c ∈ pyLower t ∨ c = '.') := by
  obtain ⟨tc, isL, htc, hsub⟩ := engineNorm_inv t e h
  obtain ⟨v, hpf, hr1, hr2, hshape⟩ :=
    engineNormFloat_inv _ _ (engineNormTC_inv _ _ _ htc)
  refine ⟨_, v, hpf, hr1, hr2, hshape, ?_⟩
  intro c hc
  rcases List.mem_map.mp hc with ⟨c0, hc0, hcc⟩
  by_cases hcomma : (c0 == ',') = true
  · right
    rw [← hcc, if_pos hcomma]
  · left
    rw [← hcc, if_neg hcomma]
    exact hsub hc0

theorem engineNorm_dot (t e : List Char) (h : engineNorm t = some e) :
    '.' ∈ e := by
  obtain ⟨norm, v, -, -, -, hshape, -⟩ := engineNorm_shape t e h
  by_cases hd : '.' ∈ norm
  · rw [hshape, if_pos hd]; exact hd
  · rw [hshape, if_neg hd]
    exact List.mem_append.mpr (Or.inr (List.mem_cons_self '.' ['0']))

theorem engineNorm_chars (t e : List Char) (h : engineNorm t = some e) :
    ∀ c ∈ e, c ∈ pyLower t ∨ c = '.' ∨ c = '0' := by
  obtain ⟨norm, v, -, -, -, hshape, hnc⟩ := engineNorm_shape t e h
  intro c hc
  by_cases hd : '.' ∈ norm
  · rw [hshape, if_pos hd] at hc
    rcases hnc c hc with h1 | h1
    · exact Or.inl h1
    · exact Or.inr (Or.inl h1)
  · rw [hshape, if_neg hd] at hc
    rcases List.mem_append.mp hc with h1 | h1
    · rcases hnc c h1 with h2 | h2
      · exact Or.inl h2
      · exact Or.inr (Or.inl h2)
    · rcases List.mem_cons.mp h1 with h2 | h2
      · exact Or.inr (Or.inl h2)
      · rcases List.mem_cons.mp h2 with h3 | h3
        · exact Or.inr (Or.inr h3)
        · exact absurd h3 (List.not_mem_nil c)

theorem engineNorm_self (t e : List Char) (h : engineNorm t = some e)
    (hlen : e.length ≤ 5) (hee : 'e' ∉ e) (hlow : pyLower e = e) :
    engineNorm e = some e := by
  obtain ⟨tc, isL, htc, hsub⟩ := engineNorm_inv t e h
  have hf := engineNormTC_inv _ _ _ htc
  obtain ⟨v, hpf, hr1, hr2, hshape⟩ := engineNormFloat_inv _ _ hf
  have hech : ∀ c ∈ e, isDigitChar c = true ∨ c ∈ ['.', '+', '-', 'e', 'E'] := by
    intro c hc
    by_cases hd : '.' ∈ tc.map (fun c => if c == ',' then '.' else c)
    · rw [hshape, if_pos hd] at hc
      exact pythonFloat_chars _ _ hpf c hc
    · rw [hshape, if_neg hd] at hc
      rcases List.mem_append.mp hc with h1 | h1
      · exact pythonFloat_chars _ _ hpf c h1
      · rcases List.mem_cons.mp h1 with h2 | h2
        · subst h2; right; decide
        · rcases List.mem_cons.mp h2 with h3 | h3
          · subst h3; left; decide
          · exact absurd h3 (List.not_mem_nil c)
  have hEe : 'E' ∉ e := by
    intro hE
    have hfix := mem_of_map_id hlow 'E' hE
    exact absurd hfix (by decide)
  have hle : 'l' ∉ e := by
    intro hl
    rcases hech 'l' hl with h1 | h1
    · exact absurd h1 (by decide)
    · revert h1; decide
  have hdot : '.' ∈ e := engineNorm_dot t e h
  unfold engineNorm
  rw [if_pos hlen]
  unfold engineNormL
  rw [hlow]
  have hlast : (e.getLast? == some 'l') = false := by
    rcases hl? : e.getLast? with _ | c
    · rfl
    · have hcm : c ∈ e := getLast?_mem hl?
      have hcl : c ≠ 'l' := fun hcc => hle (hcc ▸ hcm)
      simp [hcl]
  rw [hlast, if_neg Bool.false_ne_true]
  unfold engineNormTC
  rw [if_pos (Or.inl (Or.inl hdot))]
  have hmapid : e.map (fun c => if c == ',' then '.' else c) = e := by
    apply map_id_of_mem
    intro c hc
    have hnc : ¬ ((c == ',') = true) := by
      intro hcc
      have hcc2 := beq_iff_eq.mp hcc
      subst hcc2
      rcases hech ',' hc with h1 | h1
      · exact absurd h1 (by decide)
      · revert h1; decide
    rw [if_neg hnc]
  rw [hmapid]
  have hpfe : pythonFloat e = some v := by
    by_cases hd : '.' ∈ tc.map (fun c => if c == ',' then '.' else c)
    · have he2 : e = tc.map (fun c => if c == ',' then '.' else c) := by
        rw [hshape, if_pos hd]
      rw [he2]
      exact hpf
    · have he2 : e = tc.map (fun c => if c == ',' then '.' else c) ++ ['.', '0'] := by
        rw [hshape, if_neg hd]
      have hsubn : ∀ c ∈ tc.map (fun c => if c == ',' then '.' else c), c ∈ e := by
        intro c hc
        rw [he2]
        exact List.mem_append.mpr (Or.inl hc)
      rw [he2]
      apply pythonFloat_append_dot0 _ _ hpf hd
      · intro hc; exact hee (hsubn 'e' hc)
      · intro hc; exact hEe (hsubn 'E' hc)
  simp only [engineNormFloat, hpfe]
  rw [if_pos ⟨hr1, hr2⟩, if_pos hdot]

theorem natDigitsFuel_eq (f : Nat) : ∀ n acc, n ≤ f →
    natDigitsFuel f n acc = ((Nat.digits 10 n).reverse.map d2c) ++ acc := by
  induction f with
  | zero =>
    intro n acc hn
    have hn0 : n = 0 := Nat.le_zero.mp hn
    subst hn0
    simp [natDigitsFuel]
  | succ f ih =>
    intro n acc hn
    by_cases h0 : n = 0
    · subst h0
      simp [natDigitsFuel]
    · rw [natDigitsFuel, if_neg h0]
      have hdiv : n / 10 < n := Nat.div_lt_self (Nat.pos_of_ne_zero h0) (by norm_num)
      rw [ih (n / 10) (d2c (n % 10) :: acc) (by omega)]
      rw [Nat.digits_def' (by norm_num : 1 < 10) (Nat.pos_of_ne_zero h0)]
      rw [List.reverse_cons, List.map_append, List.append_assoc]
      rfl

theorem natDigits_eq (n : Nat) (hn : n ≠ 0) :
    natDigits n = (Nat.digits 10 n).reverse.map d2c := by
  unfold natDigits
  rw [if_neg hn, natDigitsFuel_eq n n [] (le_refl n), List.append_nil]

theorem d2c_digit (d : Nat) (h : d < 10) : isDigitChar (d2c d) = true := by
  interval_cases d <;> decide

theorem d2c_val (d : Nat) (h : d < 10) : (d2c d).toNat - 48 = d := by
  interval_cases d <;> decide

theorem foldr_ofDigits (L : List Nat) (h : ∀ d ∈ L, d < 10) :
    L.foldr (fun d a => 10 * a + ((d2c d).toNat - 48)) 0 = Nat.ofDigits 10 L := by
  induction L with
  | nil => simp [Nat.ofDigits]
  | cons d L ih =>
    rw [List.foldr_cons, ih (fun x hx => h x (List.mem_cons_of_mem d hx)),
      d2c_val d (h d (List.mem_cons_self d L)), Nat.ofDigits_cons]
    omega

theorem digitsToNat_natDigits (n : Nat) (hn : n ≠ 0) :
    digitsToNat (natDigits n) = n := by
  rw [natDigits_eq n hn]
  unfold digitsToNat
  rw [List.foldl_map, List.foldl_reverse]
  rw [foldr_ofDigits _ (fun d hd => Nat.digits_lt_base (by norm_num) hd)]
  exact Nat.ofDigits_digits 10 n

theorem natDigits_length_four (n : Nat) (h1 : 1000 ≤ n) (h2 : n < 10000) :
    (natDigits n).length = 4 := by
  rw [natDigits_eq n (by omega), List.length_map, List.length_reverse,
    Nat.digits_len 10 n (by norm_num) (by omega)]
  have hl : Nat.log 10 n = 3 :=
    Nat.log_eq_of_pow_le_of_lt_pow (by norm_num; omega) (by norm_num; omega)
  rw [hl]

theorem natDigits_isDigit (n : Nat) (hn : n ≠ 0) :
    pyIsDigit (natDigits n) = true := by
  unfold pyIsDigit
  rw [Bool.and_eq_true]
  constructor
  · rw [natDigits_eq n hn]
    simp [List.isEmpty_eq_true, Nat.digits_ne_nil_iff_ne_zero, hn]
  · rw [List.all_eq_true]
    intro c hc
    rw [natDigits_eq n hn] at hc
    rcases List.mem_map.mp hc with ⟨d, hd, hdc⟩
    rw [← hdc]
    exact d2c_digit d (Nat.digits_lt_base (by norm_num) (List.mem_reverse.mp hd))

theorem classifyToken_text_self (t u : List Char)
    (h : classifyToken t = .text u) : u = t := by
  unfold classifyToken at h
  split at h
  · simp at h
  · split at h
    · injection h with h1
      exact h1.symm
    · split at h
      · simp at h
      · split at h
        · simp at h
        · injection h with h1
          exact h1.symm

theorem classifyToken_year_facts (t : List Char) (n : Nat)
    (h : classifyToken t = .year n) :
    1950 ≤ n ∧ n ≤ 2030 := by
  unfold classifyToken at h
  split at h
  · simp at h
  · split at h
    · simp at h
    · split at h
      · next hy =>
        injection h with h1
        subst h1
        unfold isYearTok at hy
        rw [Bool.and_eq_true, Bool.and_eq_true, Bool.and_eq_true] at hy
        exact ⟨of_decide_eq_true hy.1.2, of_decide_eq_true hy.2⟩
      · split at h
        · simp at h
        · simp at h

theorem classifyToken_engine_inv (t e : List Char)
    (h : classifyToken t = .engine e) : engineNorm t = some e := by
  unfold classifyToken at h
  split at h
  · simp at h
  · split at h
    · simp at h
    · split at h
      · simp at h
      · split at h
        · next norm heq =>
          injection h with h1
          rw [heq, h1]
        · simp at h

theorem classifyToken_of_engineNorm (e : List Char) (h : engineNorm e = some e)
    (hdot : '.' ∈ e) : classifyToken e = .engine e := by
  have hstop : e ∉ STOP_WORDS := by
    intro hm
    have hdots : ∀ w ∈ STOP_WORDS, '.' ∉ w := by decide
    exact hdots e hm hdot
  have hwl : e ∉ NUMERIC_MODEL_WHITELIST := by
    intro hm
    have hdots : ∀ w ∈ NUMERIC_MODEL_WHITELIST, '.' ∉ w := by decide
    exact hdots e hm hdot
  have hyear : ¬ (isYearTok e = true) := by
    unfold isYearTok pyIsDigit
    intro hy
    simp only [Bool.and_eq_true] at hy
    have hall := List.all_eq_true.mp hy.1.1.1.2 '.' hdot
    exact absurd hall (by decide)
  unfold classifyToken
  rw [if_neg hstop, if_neg hwl, if_neg hyear, h]

theorem classifyToken_natDigits (n : Nat) (h1 : 1950 ≤ n) (h2 : n ≤ 2030) :
    classifyToken (natDigits n) = .year n := by
  have hn0 : n ≠ 0 := by omega
  have hdig := natDigits_isDigit n hn0
  have hlen := natDigits_length_four n (by omega) (by omega)
  have hval := digitsToNat_natDigits n hn0
  have hstop : natDigits n ∉ STOP_WORDS := by
    intro hm
    have hnd : ∀ w ∈ STOP_WORDS, w.all isDigitChar = false := by decide
    have h3 := hnd _ hm
    unfold pyIsDigit at hdig
    rw [Bool.and_eq_true] at hdig
    rw [hdig.2] at h3
    exact Bool.noConfusion h3
  have hwl : natDigits n ∉ NUMERIC_MODEL_WHITELIST := by
    intro hm
    have hnd : ∀ w ∈ NUMERIC_MODEL_WHITELIST,
        ¬ (w.length = 4 ∧ w.all isDigitChar = true ∧
          1950 ≤ digitsToNat w ∧ digitsToNat w ≤ 2030) := by decide
    apply hnd _ hm
    unfold pyIsDigit at hdig
    rw [Bool.and_eq_true] at hdig
    exact ⟨hlen, hdig.2, by rw [hval]; exact h1, by rw [hval]; exact h2⟩
  have hy : isYearTok (natDigits n) = true := by
    unfold isYearTok
    rw [Bool.and_eq_true, Bool.and_eq_true, Bool.and_eq_true]
    refine ⟨⟨⟨hdig, by rw [hlen]; rfl⟩, ?_⟩, ?_⟩
    · rw [hval]; exact decide_eq_true h1
    · rw [hval]; exact decide_eq_true h2
  unfold classifyToken
  rw [if_neg hstop, if_neg hwl, if_pos hy, hval]

theorem textsOf_mem (ts : List (List Char)) (u : List Char)
    (h : u ∈ textsOf ts) : u ∈ ts ∧ classifyToken u = .text u := by
  rcases List.mem_filterMap.mp h with ⟨t, ht, hft⟩
  unfold filterText at hft
  split at hft
  · next u' heq =>
    injection hft with h1
    have h2 := classifyToken_text_self t u' heq
    subst h2
    subst h1
    exact ⟨ht, heq⟩
  · exact Option.noConfusion hft

theorem yearsOf_mem (ts : List (List Char)) (n : Nat)
    (h : n ∈ yearsOf ts) : ∃ t ∈ ts, classifyToken t = .year n := by
  rcases List.mem_filterMap.mp h with ⟨t, ht, hft⟩
  unfold filterYear at hft
  split at hft
  · next n' heq =>
    injection hft with h1
    exact ⟨t, ht, h1 ▸ heq⟩
  · exact Option.noConfusion hft

theorem enginesOf_mem (ts : List (List Char)) (e : List Char)
    (h : e ∈ enginesOf ts) : ∃ t ∈ ts, classifyToken t = .engine e := by
  rcases List.mem_filterMap.mp h with ⟨t, ht, hft⟩
  unfold filterEngine at hft
  split at hft
  · next e' heq =>
    injection hft with h1
    exact ⟨t, ht, h1 ▸ heq⟩
  · exact Option.noConfusion hft

theorem textsOf_self (l : List (List Char))
    (h : ∀ u ∈ l, classifyToken u = .text u) : textsOf l = l := by
  induction l with
  | nil => rfl
  | cons u l ih =>
    unfold textsOf at ih ⊢
    rw [List.filterMap_cons]
    have hu : filterText u = some u := by
      unfold filterText
      rw [h u (List.mem_cons_self u l)]
    rw [hu, ih fun x hx => h x (List.mem_cons_of_mem u hx)]

theorem yearsOf_of_texts (l : List (List Char))
    (h : ∀ u ∈ l, classifyToken u = .text u) : yearsOf l = [] := by
  unfold yearsOf
  rw [List.filterMap_eq_nil_iff]
  intro a ha
  unfold filterYear
  rw [h a ha]

theorem enginesOf_of_texts (l : List (List Char))
    (h : ∀ u ∈ l, classifyToken u = .text u) : enginesOf l = [] := by
  unfold enginesOf
  rw [List.filterMap_eq_nil_iff]
  intro a ha
  unfold filterEngine
  rw [h a ha]

theorem normalize_fixed (r : List Char)
    (hlow : pyLower r = r) (hnc : ',' ∉ r) (hnp : '(' ∉ r) (hnq : ')' ∉ r)
    (hna : '\'' ∉ r) (hsyn : ∀ kv ∈ SYNONYMS, containsSub kv.1 r = false) :
    normalizeText r = r := by
  have s1 : containsSub (s2l "vw") r = false :=
    hsyn (s2l "vw", s2l "volkswagen") (by decide)
  have s2 : containsSub (s2l "volks") r = false :=
    hsyn (s2l "volks", s2l "volkswagen") (by decide)
  have s3 : containsSub (s2l "chevy") r = false :=
    hsyn (s2l "chevy", s2l "chevrolet") (by decide)
  have s4 : containsSub (s2l "mb") r = false :=
    hsyn (s2l "mb", s2l "mercedes-benz") (by decide)
  have s5 : containsSub (s2l "mercedes") r = false :=
    hsyn (s2l "mercedes", s2l "mercedes-benz") (by decide)
  have s6 : containsSub (s2l "citroen") r = false :=
    hsyn (s2l "citroen", s2l "citroën") (by decide)
  have s7 : containsSub (s2l "s-10") r = false :=
    hsyn (s2l "s-10", s2l "s10") (by decide)
  have s8 : containsSub (s2l "s 10") r = false :=
    hsyn (s2l "s 10", s2l "s10") (by decide)
  unfold normalizeText
  rw [show pyLower r = r from hlow, commaSub_no_comma r hnc,
    pyReplace_of_not_contains r [','] [] (containsSub_single_of_not_mem ',' r hnc),
    pyReplace_of_not_contains r ['('] [] (containsSub_single_of_not_mem '(' r hnp),
    pyReplace_of_not_contains r [')'] [] (containsSub_single_of_not_mem ')' r hnq),
    pyReplace_of_not_contains r ['\''] [] (containsSub_single_of_not_mem '\'' r hna)]
  unfold applySynonyms
  simp only [SYNONYMS, List.foldl_cons, List.foldl_nil]
  rw [pyReplace_of_not_contains r (s2l "vw") (s2l "volkswagen") s1,
    pyReplace_of_not_contains r (s2l "volks") (s2l "volkswagen") s2,
    pyReplace_of_not_contains r (s2l "chevy") (s2l "chevrolet") s3,
    pyReplace_of_not_contains r (s2l "mb") (s2l "mercedes-benz") s4,
    pyReplace_of_not_contains r (s2l "mercedes") (s2l "mercedes-benz") s5,
    pyReplace_of_not_contains r (s2l "citroen") (s2l "citroën") s6,
    pyReplace_of_not_contains r (s2l "s-10") (s2l "s10") s7,
    pyReplace_of_not_contains r (s2l "s 10") (s2l "s10") s8]

theorem digitChar_not_space (c : Char) (h : isDigitChar c = true) :
    isSpaceChar c = false := by
  unfold isSpaceChar
  simp only [Bool.or_eq_false_iff, beq_eq_false_iff_ne, ne_eq]
  refine ⟨⟨⟨⟨⟨?_, ?_⟩, ?_⟩, ?_⟩, ?_⟩, ?_⟩ <;>
    (intro hc; subst hc; revert h; decide)

theorem digitChar_not_bad (c : Char) (h : isDigitChar c = true) :
    c ≠ ',' ∧ c ≠ '(' ∧ c ≠ ')' ∧ c ≠ '\'' := by
  refine ⟨?_, ?_, ?_, ?_⟩ <;> (intro hc; subst hc; revert h; decide)

theorem textsOf_append (a b : List (List Char)) :
    textsOf (a ++ b) = textsOf a ++ textsOf b := List.filterMap_append ..

theorem yearsOf_append (a b : List (List Char)) :
    yearsOf (a ++ b) = yearsOf a ++ yearsOf b := List.filterMap_append ..

theorem enginesOf_append (a b : List (List Char)) :
    enginesOf (a ++ b) = enginesOf a ++ enginesOf b := List.filterMap_append ..

theorem textsOf_year_nil (t : List Char) (n : Nat)
    (h : classifyToken t = .year n) : textsOf [t] = [] := by
  simp [textsOf, filterText, h]

theorem textsOf_engine_nil (t e : List Char)
    (h : classifyToken t = .engine e) : textsOf [t] = [] := by
  simp [textsOf, filterText, h]

theorem yearsOf_year_singleton (t : List Char) (n : Nat)
    (h : classifyToken t = .year n) : yearsOf [t] = [n] := by
  simp [yearsOf, filterYear, h]

theorem yearsOf_engine_nil (t e : List Char)
    (h : classifyToken t = .engine e) : yearsOf [t] = [] := by
  simp [yearsOf, filterYear, h]

theorem enginesOf_year_nil (t : List Char) (n : Nat)
    (h : classifyToken t = .year n) : enginesOf [t] = [] := by
  simp [enginesOf, filterEngine, h]

theorem enginesOf_engine_singleton (t e : List Char)
    (h : classifyToken t = .engine e) : enginesOf [t] = [e] := by
  simp [enginesOf, filterEngine, h]

/-- C2 (amended): parsing is idempotent on the parser's re-rendered output
only under the conditions the counterexample family forces: the rendered
query string must be nonempty, no synonym key may occur inside it as a
substring (the synonym pass is literal substring replacement and would
rewrite it again), and a recorded engine filter string must still be a
five-character-or-shorter plain decimal (no exponent notation) so that it
re-classifies to itself.  Under those conditions, re-parsing the rendered
text tokens and filters reproduces exactly the same parse. -/
theorem C2_idempotent_on_safe_render (text : List Char) (q : ParsedQuery)
    (hq : parse_search_query text = .result q)
    (hne : renderQuery q ≠ [])
    (hsyn : ∀ kv ∈ SYNONYMS, containsSub kv.1 (renderQuery q) = false)
    (heng : ∀ e, q.engine_filter = some e → e.length ≤ 5 ∧ 'e' ∉ e) :
    parse_search_query (renderQuery q) = .result q := by
  by_cases htext : text = []
  · subst htext
    rw [show parse_search_query [] = ParseResult.emptyDict from rfl] at hq
    exact ParseResult.noConfusion hq
  have h2 : parse_search_query text
      = ParseResult.result (runTokens (tokensOf text)) := by
    unfold parse_search_query
    rw [if_neg htext]
  rw [h2] at hq
  have hqq := ParseResult.result.inj hq
  have hqe : q = ⟨textsOf (tokensOf text), (yearsOf (tokensOf text)).getLast?,
      (enginesOf (tokensOf text)).getLast?⟩ := by
    rw [← hqq, runTokens_eq]
  have hqt : q.text_tokens = textsOf (tokensOf text) := by rw [hqe]
  have hqy : q.year_filter = (yearsOf (tokensOf text)).getLast? := by rw [hqe]
  have hqen : q.engine_filter = (enginesOf (tokensOf text)).getLast? := by
    rw [hqe]
  have htok := tokensOf_props text
  have htexts : ∀ u ∈ q.text_tokens,
      u ∈ tokensOf text ∧ classifyToken u = .text u := by
    intro u hu
    rw [hqt] at hu
    exact textsOf_mem (tokensOf text) u hu
  have hAclass : ∀ u ∈ q.text_tokens, classifyToken u = .text u :=
    fun u hu => (htexts u hu).2
  have hApieces : ∀ u ∈ q.text_tokens, u ≠ [] ∧ ∀ c ∈ u,
      (lowerChar c = c ∧ c ≠ ',' ∧ c ≠ '(' ∧ c ≠ ')' ∧ c ≠ '\'') ∧
        isSpaceChar c = false :=
    fun u hu => htok u (htexts u hu).1
  have hyearfacts : ∀ y, q.year_filter = some y →
      classifyToken (natDigits y) = .year y ∧ natDigits y ≠ [] ∧
      ∀ c ∈ natDigits y,
        (lowerChar c = c ∧ c ≠ ',' ∧ c ≠ '(' ∧ c ≠ ')' ∧ c ≠ '\'') ∧
          isSpaceChar c = false := by
    intro y hy
    have hy2 : (yearsOf (tokensOf text)).getLast? = some y := by
      rw [← hqy]
      exact hy
    obtain ⟨t, ht, hct⟩ := yearsOf_mem _ y (getLast?_mem hy2)
    obtain ⟨hb1, hb2⟩ := classifyToken_year_facts t y hct
    have hdig := natDigits_isDigit y (by omega)
    unfold pyIsDigit at hdig
    rw [Bool.and_eq_true] at hdig
    refine ⟨classifyToken_natDigits y hb1 hb2, ?_, ?_⟩
    · intro hnil
      rw [hnil] at hdig
      exact absurd hdig.1 (by decide)
    · intro c hc
      have hcd := List.all_eq_true.mp hdig.2 c hc
      obtain ⟨hb3, hb4, hb5, hb6⟩ := digitChar_not_bad c hcd
      exact ⟨⟨digitChar_not_key c hcd, hb3, hb4, hb5, hb6⟩,
        digitChar_not_space c hcd⟩
  have hengfacts : ∀ e, q.engine_filter = some e →
      classifyToken e = .engine e ∧ e ≠ [] ∧
      ∀ c ∈ e,
        (lowerChar c = c ∧ c ≠ ',' ∧ c ≠ '(' ∧ c ≠ ')' ∧ c ≠ '\'') ∧
          isSpaceChar c = false := by
    intro e he
    have he2 : (enginesOf (tokensOf text)).getLast? = some e := by
      rw [← hqen]
      exact he
    obtain ⟨t, ht, hct⟩ := enginesOf_mem _ e (getLast?_mem he2)
    have hEN := classifyToken_engine_inv t e hct
    obtain ⟨hlen5, hee⟩ := heng e he
    obtain ⟨htne, htch⟩ := htok t ht
    have hlowt : pyLower t = t := map_id_of_mem (fun c hc => (htch c hc).1.1)
    have hchars : ∀ c ∈ e,
        (lowerChar c = c ∧ c ≠ ',' ∧ c ≠ '(' ∧ c ≠ ')' ∧ c ≠ '\'') ∧
          isSpaceChar c = false := by
      intro c hc
      rcases engineNorm_chars t e hEN c hc with h1 | h1 | h1
      · rw [hlowt] at h1
        exact htch c h1
      · subst h1
        exact ⟨⟨by decide, by decide, by decide, by decide, by decide⟩, by decide⟩
      · subst h1
        exact ⟨⟨by decide, by decide, by decide, by decide, by decide⟩, by decide⟩
    have hlowe : pyLower e = e := map_id_of_mem (fun c hc => (hchars c hc).1.1)
    have hself := engineNorm_self t e hEN hlen5 hee hlowe
    have hdot := engineNorm_dot t e hEN
    exact ⟨classifyToken_of_engineNorm e hself hdot,
      List.ne_nil_of_mem hdot, hchars⟩
  have hpieces : ∀ u ∈ piecesOf q, u ≠ [] ∧ ∀ c ∈ u,
      (lowerChar c = c ∧ c ≠ ',' ∧ c ≠ '(' ∧ c ≠ ')' ∧ c ≠ '\'') ∧
        isSpaceChar c = false := by
    intro u hu
    unfold piecesOf at hu
    rcases List.mem_append.mp hu with h1 | h1
    · rcases List.mem_append.mp h1 with h2 | h2
      · exact hApieces u h2
      · rcases hY : q.year_filter with _ | y <;> rw [hY] at h2
        · exact absurd h2 (List.not_mem_nil u)
        · rcases List.mem_cons.mp h2 with h3 | h3
          · obtain ⟨-, hb, hcc⟩ := hyearfacts y hY
            exact h3 ▸ ⟨hb, hcc⟩
          · exact absurd h3 (List.not_mem_nil u)
    · rcases hE : q.engine_filter with _ | e <;> rw [hE] at h1
      · exact absurd h1 (List.not_mem_nil u)
      · rcases List.mem_cons.mp h1 with h3 | h3
        · obtain ⟨-, hb, hcc⟩ := hengfacts e hE
          exact h3 ▸ ⟨hb, hcc⟩
        · exact absurd h3 (List.not_mem_nil u)
  have hrchar : ∀ c ∈ renderQuery q,
      lowerChar c = c ∧ c ≠ ',' ∧ c ≠ '(' ∧ c ≠ ')' ∧ c ≠ '\'' := by
    intro c hc
    rcases mem_joinSpace _ c hc with h1 | ⟨p, hp, hcp⟩
    · subst h1
      exact ⟨by decide, by decide, by decide, by decide, by decide⟩
    · exact ((hpieces p hp).2 c hcp).1
  have hnorm : normalizeText (renderQuery q) = renderQuery q := by
    apply normalize_fixed
    · exact map_id_of_mem (fun c hc => (hrchar c hc).1)
    · intro hm
      exact (hrchar ',' hm).2.1 rfl
    · intro hm
      exact (hrchar '(' hm).2.2.1 rfl
    · intro hm
      exact (hrchar ')' hm).2.2.2.1 rfl
    · intro hm
      exact (hrchar '\'' hm).2.2.2.2 rfl
    · exact hsyn
  have htoks : tokensOf (renderQuery q) = piecesOf q := by
    unfold tokensOf
    rw [hnorm]
    unfold renderQuery
    exact pySplit_joinSpace _
      (fun t ht => ⟨(hpieces t ht).1, fun c hc => ((hpieces t ht).2 c hc).2⟩)
  unfold parse_search_query
  rw [if_neg hne, htoks, runTokens_eq]
  have hA : textsOf q.text_tokens = q.text_tokens := textsOf_self _ hAclass
  have hAy : yearsOf q.text_tokens = [] := yearsOf_of_texts _ hAclass
  have hAe : enginesOf q.text_tokens = [] := enginesOf_of_texts _ hAclass
  rcases hY : q.year_filter with _ | y <;> rcases hE : q.engine_filter with _ | e
  · rw [ParseResult.result.injEq]
    simp only [piecesOf, hY, hE, List.append_nil]
    rw [hA, hAy, hAe]
    conv_rhs =>
      rw [show q = (⟨q.text_tokens, q.year_filter, q.engine_filter⟩ :
        ParsedQuery) from rfl]
    rw [hY, hE, ParsedQuery.mk.injEq]
    exact ⟨rfl, rfl, rfl⟩
  · obtain ⟨hce, -, -⟩ := hengfacts e hE
    rw [ParseResult.result.injEq]
    simp only [piecesOf, hY, hE, List.append_nil, List.nil_append]
    rw [textsOf_append, yearsOf_append, enginesOf_append,
      textsOf_engine_nil e e hce, yearsOf_engine_nil e e hce,
      enginesOf_engine_singleton e e hce, hA, hAy, hAe]
    conv_rhs =>
      rw [show q = (⟨q.text_tokens, q.year_filter, q.engine_filter⟩ :
        ParsedQuery) from rfl]
    rw [hY, hE, ParsedQuery.mk.injEq]
    exact ⟨by simp, by simp, by simp⟩
  · obtain ⟨hcy, -, -⟩ := hyearfacts y hY
    rw [ParseResult.result.injEq]
    simp only [piecesOf, hY, hE, List.append_nil]
    rw [textsOf_append, yearsOf_append, enginesOf_append,
      textsOf_year_nil (natDigits y) y hcy,
      yearsOf_year_singleton (natDigits y) y hcy,
      enginesOf_year_nil (natDigits y) y hcy, hA, hAy, hAe]
    conv_rhs =>
      rw [show q = (⟨q.text_tokens, q.year_filter, q.engine_filter⟩ :
        ParsedQuery) from rfl]
    rw [hY, hE, ParsedQuery.mk.injEq]
    exact ⟨by simp, by simp, by simp⟩
  · obtain ⟨hcy, -, -⟩ := hyearfacts y hY
    obtain ⟨hce, -, -⟩ := hengfacts e hE
    rw [ParseResult.result.injEq]
    simp only [piecesOf, hY, hE]
    rw [textsOf_append, yearsOf_append, enginesOf_append,
      textsOf_append, yearsOf_append, enginesOf_append,
      textsOf_year_nil (natDigits y) y hcy,
      yearsOf_year_singleton (natDigits y) y hcy,
      enginesOf_year_nil (natDigits y) y hcy,
      textsOf_engine_nil e e hce, yearsOf_engine_nil e e hce,
      enginesOf_engine_singleton e e hce, hA, hAy, hAe]
    conv_rhs =>
      rw [show q = (⟨q.text_tokens, q.year_filter, q.engine_filter⟩ :
        ParsedQuery) from rfl]
    rw [hY, hE, ParsedQuery.mk.injEq]
    exact ⟨by simp, by simp, by simp⟩

/-- Witness for C2: the concrete query "gol trend 1.6 2015" parses to a
result whose rendered form "gol trend 2015 1.6" is nonempty, contains no
synonym key, and carries the short plain-decimal engine filter "1.6"; the
amended idempotence theorem then applies and re-parsing the rendered text
reproduces the same parse. -/
theorem C2_idempotent_on_safe_render_witness :
    parse_search_query (s2l "gol trend 1.6 2015")
      = ParseResult.result
          ⟨[s2l "gol", s2l "trend"], some 2015, some (s2l "1.6")⟩
    ∧ parse_search_query
        (renderQuery ⟨[s2l "gol", s2l "trend"], some 2015, some (s2l "1.6")⟩)
      = ParseResult.result
          ⟨[s2l "gol", s2l "trend"], some 2015, some (s2l "1.6")⟩ :=
  ⟨by with_unfolding_all decide,
    C2_idempotent_on_safe_render (s2l "gol trend 1.6 2015")
      ⟨[s2l "gol", s2l "trend"], some 2015, some (s2l "1.6")⟩
      (by with_unfolding_all decide) (by decide) (by decide)
      (fun e he => by
        rw [← Option.some.inj he]
        exact ⟨by decide, by decide⟩)⟩
